import Mathlib

/-!
Verification development for the gOASper repository.

The repository exposes a thin Python `Layout` wrapper (src/python/goasper/__init__.py)
around a native layout-conversion engine, plus an SVG Gosper-curve generator
(src/python/generate_gosper.py).  The engine itself (GDSII reader, layout model,
transform algebra, OASIS writer) is not shipped in the source tree, so it is
modelled here from the specification; the Python files are embedded directly.

Conventions: machine bytes are `Nat` values below 256, byte streams are `List Nat`,
fallible operations return `Except`/`Option`, Python floats in the SVG generator
are embedded as real (geometry with trigonometry) or rational (pure field
arithmetic) numbers.
-/

namespace GOASper

/-! ## Byte-level primitives (Binary Record Codec, spec section 4.1)

Modelled from the spec: fixed-width big-endian unsigned/signed integers,
the packed excess-64 floating format, and NUL-padded ASCII strings. -/

/-- Big-endian fixed-width encoding of a natural number into `k` bytes. -/
def be : Nat → Nat → List Nat
  | 0, _ => []
  | k + 1, n => be k (n / 256) ++ [n % 256]

/-- Big-endian decoding of a byte list into a natural number. -/
def debe (bs : List Nat) : Nat := bs.foldl (fun acc b => acc * 256 + b) 0

/-- Two's-complement encoding of an integer into `k` bytes, big-endian. -/
def twosEncode (k : Nat) (i : Int) : List Nat := be k (i.emod (2 ^ (8 * k))).toNat

/-- Two's-complement decoding of a `k`-byte big-endian value. -/
def twosDecode (k : Nat) (bs : List Nat) : Int :=
  let n := debe bs
  if n < 2 ^ (8 * k - 1) then (n : Int) else (n : Int) - 2 ^ (8 * k)

/-- A real number at the GDSII format's precision: sign bit, excess-64
exponent and 56-bit mantissa (spec section 4.1: the packed fixed-point real
format with reversible rounding to the format's precision). -/
structure GdsReal where
  neg : Bool
  exp : Nat
  mant : Nat
deriving DecidableEq

/-- Wellformedness of a format real: exponent below 128, mantissa below 2^56. -/
def GdsReal.wf (r : GdsReal) : Prop := r.exp < 128 ∧ r.mant < 2 ^ 56

instance (r : GdsReal) : Decidable r.wf := by unfold GdsReal.wf; infer_instance

/-- The format real denoting zero. -/
def gdsZero : GdsReal := ⟨false, 0, 0⟩

/-- The format real denoting one (mantissa 1/16, exponent 65). -/
def gdsOne : GdsReal := ⟨false, 65, 2 ^ 52⟩

/-- Rational value denoted by a format real. -/
def GdsReal.toQ (r : GdsReal) : ℚ :=
  (if r.neg then -1 else 1) * (r.mant : ℚ) / 2 ^ 56 * 16 ^ (r.exp : ℤ) / 16 ^ (64 : ℤ)

/-- Encode a format real into its eight bytes. -/
def encReal (r : GdsReal) : List Nat :=
  ((if r.neg then 128 else 0) + r.exp) :: be 7 r.mant

/-- Decode eight bytes into a format real; `none` when the length is wrong. -/
def decReal (bs : List Nat) : Option GdsReal :=
  match bs with
  | b0 :: rest =>
    if rest.length = 7 then some ⟨128 ≤ b0, b0 % 128, debe rest⟩ else none
  | [] => none

/-- Strip the trailing NUL bytes of a string payload (spec section 4.1:
length-prefixed strings with automatic trailing NUL-byte stripping). -/
def stripNul (bs : List Nat) : List Nat :=
  (bs.reverse.dropWhile (fun b => b = 0)).reverse

/-- Encode an ASCII string payload, NUL-padded to even length. -/
def encStr (s : String) : List Nat :=
  let bs := s.data.map Char.toNat
  if bs.length % 2 = 0 then bs else bs ++ [0]

/-- Decode a string payload, stripping trailing NUL padding. -/
def decStr (bs : List Nat) : String := String.mk ((stripNul bs).map Char.ofNat)

/-! ## Layout Model (spec section 3)

Modelled from the spec: a library of named cells, each an ordered sequence of
elements; transforms carry translation, rotation angle, mirror flag and
magnification.  Angle and magnification are stored at the format's precision
(`GdsReal`), per the codec's reversible-rounding contract. -/

/-- Placement transform: mirror-about-x flag, magnification, rotation angle
in degrees (both at format precision) and an integer translation vector. -/
structure Transform where
  mirrorX : Bool
  mag : GdsReal
  angle : GdsReal
  x : Int
  y : Int
deriving DecidableEq

/-- The identity transform: no mirror, magnification one, angle zero. -/
def idTransform : Transform := ⟨false, gdsOne, gdsZero, 0, 0⟩

/-- Layout element: polygon, path, box, text, single reference or array
reference (spec section 3, Element). -/
inductive Element where
  | polygon (layer dtype : Int) (pts : List (Int × Int))
  | pathEl (layer dtype : Int) (width : Int) (pts : List (Int × Int))
  | box (layer dtype : Int) (pts : List (Int × Int))
  | text (layer dtype : Int) (pos : Int × Int) (str : String)
  | sref (target : String) (t : Transform)
  | aref (target : String) (t : Transform) (cols rows : Nat) (colVec rowVec : Int × Int)
deriving DecidableEq

/-- A named cell (structure) holding an ordered element sequence. -/
structure Cell where
  name : String
  elements : List Element
deriving DecidableEq

/-- The root layout: library name, the two unit scale factors, and the
ordered cell collection (insertion order = declaration order). -/
structure Layout where
  libName : String
  userUnit : GdsReal
  dbUnit : GdsReal
  cells : List Cell
deriving DecidableEq

/-- Reference targets named by an element. -/
def elemTargets : Element → List String
  | .sref tgt _ => [tgt]
  | .aref tgt _ _ _ _ _ => [tgt]
  | _ => []

/-- Reference targets named by a cell, in element order. -/
def cellTargets (c : Cell) : List String := c.elements.flatMap elemTargets

/-- Cell-name index of the layout (spec section 4.5): cell names in Layout
declaration order, not alphabetic and not reference-topological order. -/
def listCellNames (m : Layout) : List String := m.cells.map Cell.name

/-! ## Error taxonomy (spec section 6)

Modelled from the spec: `loadFromStream` fails with exactly one of five
declared error kinds. -/

deriving instance DecidableEq for Except

/-- The five declared load errors. -/
inductive LoadError where
  | truncatedStream
  | invalidRecordLength
  | malformedStructure
  | unexpectedEndOfStream
  | cyclicReference
deriving DecidableEq

/-! ## Record codec (spec section 4.1)

Modelled from the spec: tagged, length-prefixed records; `readRecord` fails
with `TruncatedStreamError` when fewer bytes remain than the declared record
length, and with `InvalidRecordLengthError` when the declared length is odd
(word alignment).  The declared length counts the four header bytes. -/

/-- A decoded record: tag and raw payload. -/
abbrev Rec := Nat × List Nat

/-- Read one tagged, length-prefixed record from the stream, returning the
record and the unconsumed rest. -/
def readRecord (s : List Nat) : Except LoadError (Rec × List Nat) :=
  match s with
  | a :: b :: c :: d :: s' =>
    let len := a * 256 + b
    if len % 2 = 1 then .error .invalidRecordLength
    else if len < 4 then .error .invalidRecordLength
    else if s'.length < len - 4 then .error .truncatedStream
    else .ok ((c * 256 + d, s'.take (len - 4)), s'.drop (len - 4))
  | _ => .error .truncatedStream

/-- Encode one record: two length bytes (payload plus four header bytes),
two tag bytes, then the payload, symmetric to `readRecord`. -/
def encRecord (tag : Nat) (payload : List Nat) : List Nat :=
  be 2 (payload.length + 4) ++ be 2 tag ++ payload

/-- GDSII record tags (record type and data type bytes). -/
def tHEADER : Nat := 0x0002
/-- BGNLIB record tag. -/
def tBGNLIB : Nat := 0x0102
/-- LIBNAME record tag. -/
def tLIBNAME : Nat := 0x0206
/-- UNITS record tag. -/
def tUNITS : Nat := 0x0305
/-- ENDLIB record tag. -/
def tENDLIB : Nat := 0x0400
/-- BGNSTR record tag. -/
def tBGNSTR : Nat := 0x0502
/-- STRNAME record tag. -/
def tSTRNAME : Nat := 0x0606
/-- ENDSTR record tag. -/
def tENDSTR : Nat := 0x0700
/-- BOUNDARY record tag. -/
def tBOUNDARY : Nat := 0x0800
/-- PATH record tag. -/
def tPATH : Nat := 0x0900
/-- SREF record tag. -/
def tSREF : Nat := 0x0A00
/-- AREF record tag. -/
def tAREF : Nat := 0x0B00
/-- TEXT record tag. -/
def tTEXT : Nat := 0x0C00
/-- LAYER record tag. -/
def tLAYER : Nat := 0x0D02
/-- DATATYPE record tag. -/
def tDATATYPE : Nat := 0x0E02
/-- WIDTH record tag. -/
def tWIDTH : Nat := 0x0F03
/-- XY record tag. -/
def tXY : Nat := 0x1003
/-- ENDEL record tag. -/
def tENDEL : Nat := 0x1100
/-- SNAME record tag. -/
def tSNAME : Nat := 0x1206
/-- COLROW record tag. -/
def tCOLROW : Nat := 0x1302
/-- STRING record tag. -/
def tSTRING : Nat := 0x1906
/-- STRANS record tag. -/
def tSTRANS : Nat := 0x1A01
/-- MAG record tag. -/
def tMAG : Nat := 0x1B05
/-- ANGLE record tag. -/
def tANGLE : Nat := 0x1C05
/-- BOX record tag. -/
def tBOX : Nat := 0x2D00

/-- The record tags the reader recognizes; all other tags are skipped
(spec section 4.2: unknown tags within a recognized context are skipped). -/
def knownTags : List Nat :=
  [tHEADER, tBGNLIB, tLIBNAME, tUNITS, tENDLIB, tBGNSTR, tSTRNAME, tENDSTR,
   tBOUNDARY, tPATH, tSREF, tAREF, tTEXT, tLAYER, tDATATYPE, tWIDTH, tXY,
   tENDEL, tSNAME, tCOLROW, tSTRING, tSTRANS, tMAG, tANGLE, tBOX]

/-- Split the stream into records up to and including `ENDLIB`; bytes after
`ENDLIB` are ignored, a cleanly exhausted stream without `ENDLIB` is an
`UnexpectedEndOfStreamError` (spec section 4.2). -/
def recordize : Nat → List Nat → Except LoadError (List Rec)
  | 0, _ => .error .unexpectedEndOfStream
  | fuel + 1, s =>
    if s.isEmpty then .error .unexpectedEndOfStream
    else
      match readRecord s with
      | .error e => .error e
      | .ok (r, rest) =>
        if r.1 = tENDLIB then .ok [r]
        else
          match recordize fuel rest with
          | .error e => .error e
          | .ok rs => .ok (r :: rs)

/-! ## GDSII Reader (spec section 4.2)

Modelled from the spec: a state machine over records, one grammar level at a
time — library level, structure level, element level.  Unknown tags are
skipped; a known tag violating the current state is a fatal
`MalformedStructureError`; a missing or duplicate `STRNAME` is fatal. -/

/-- Decode an XY payload into signed 4-byte coordinate pairs. -/
def decXY : List Nat → List (Int × Int)
  | b1 :: b2 :: b3 :: b4 :: b5 :: b6 :: b7 :: b8 :: rest =>
    (twosDecode 4 [b1, b2, b3, b4], twosDecode 4 [b5, b6, b7, b8]) :: decXY rest
  | _ => []

/-- Fields accumulated for the element currently being parsed, populated in
any order until the matching `ENDEL`. -/
structure PElem where
  layer : Option Int := none
  dtype : Option Int := none
  width : Option Int := none
  xy : Option (List (Int × Int)) := none
  sname : Option String := none
  colrow : Option (Nat × Nat) := none
  mirrored : Option Bool := none
  mag : Option GdsReal := none
  angle : Option GdsReal := none
  strv : Option String := none
deriving DecidableEq

/-- Kinds of element openers. -/
inductive EKind where
  | boundary | pathK | boxK | textK | srefK | arefK
deriving DecidableEq

/-- Build the transform of a reference element from its accumulated fields;
absent `STRANS`/`MAG`/`ANGLE` default to unmirrored, magnification one and
angle zero. -/
def pelemTransform (p : PElem) (pos : Int × Int) : Transform :=
  ⟨p.mirrored.getD false, p.mag.getD gdsOne, p.angle.getD gdsZero, pos.1, pos.2⟩

/-- Finalize an accumulated element at `ENDEL`; `none` when a required field
is missing or malformed (fatal `MalformedStructureError`). -/
def finalize (k : EKind) (p : PElem) : Option Element :=
  match k with
  | .boundary => do
    let l ← p.layer; let d ← p.dtype; let pts ← p.xy
    pure (.polygon l d pts)
  | .pathK => do
    let l ← p.layer; let d ← p.dtype; let pts ← p.xy
    pure (.pathEl l d (p.width.getD 0) pts)
  | .boxK => do
    let l ← p.layer; let d ← p.dtype; let pts ← p.xy
    pure (.box l d pts)
  | .textK => do
    let l ← p.layer; let d ← p.dtype; let pts ← p.xy; let s ← p.strv
    match pts with
    | [pos] => pure (.text l d pos s)
    | _ => none
  | .srefK => do
    let tgt ← p.sname; let pts ← p.xy
    match pts with
    | [pos] => pure (.sref tgt (pelemTransform p pos))
    | _ => none
  | .arefK => do
    let tgt ← p.sname; let pts ← p.xy; let (cols, rows) ← p.colrow
    match pts with
    | [p1, p2, p3] =>
      if cols = 0 ∨ rows = 0 then none
      else
        pure (.aref tgt (pelemTransform p p1) cols rows
          ((p2.1 - p1.1) / cols, (p2.2 - p1.2) / cols)
          ((p3.1 - p1.1) / rows, (p3.2 - p1.2) / rows))
    | _ => none

/-- Reader modes below the library prelude: between structures, awaiting a
structure name, inside a structure, or inside an element. -/
inductive CMode where
  | top (cells : List Cell)
  | wantName (cells : List Cell)
  | inStr (cells : List Cell) (cname : String) (elems : List Element)
  | inElem (cells : List Cell) (cname : String) (elems : List Element)
           (kind : EKind) (p : PElem)

/-- The cells finalized so far in a reader mode. -/
def CMode.cellsAcc : CMode → List Cell
  | .top cells => cells
  | .wantName cells => cells
  | .inStr cells _ _ => cells
  | .inElem cells _ _ _ _ => cells

/-- Structure- and element-level state machine: consumes records one at a
time until `ENDLIB`, finalizing a cell at each `ENDSTR` in declaration
order.  Exhausting the records without `ENDLIB` is an
`UnexpectedEndOfStreamError`. -/
def runCells : List Rec → CMode → Except LoadError (List Cell)
  | [], _ => .error .unexpectedEndOfStream
  | (t, pl) :: rest, mode =>
    if t ∉ knownTags then runCells rest mode
    else
      match mode with
      | .top cells =>
        if t = tENDLIB then .ok cells
        else if t = tBGNSTR then runCells rest (.wantName cells)
        else .error .malformedStructure
      | .wantName cells =>
        if t = tSTRNAME then
          let name := decStr pl
          if (cells.map Cell.name).contains name then .error .malformedStructure
          else runCells rest (.inStr cells name [])
        else .error .malformedStructure
      | .inStr cells cname elems =>
        if t = tENDSTR then runCells rest (.top (cells ++ [⟨cname, elems⟩]))
        else if t = tBOUNDARY then runCells rest (.inElem cells cname elems .boundary {})
        else if t = tPATH then runCells rest (.inElem cells cname elems .pathK {})
        else if t = tBOX then runCells rest (.inElem cells cname elems .boxK {})
        else if t = tTEXT then runCells rest (.inElem cells cname elems .textK {})
        else if t = tSREF then runCells rest (.inElem cells cname elems .srefK {})
        else if t = tAREF then runCells rest (.inElem cells cname elems .arefK {})
        else .error .malformedStructure
      | .inElem cells cname elems kind p =>
        if t = tENDEL then
          match finalize kind p with
          | some e => runCells rest (.inStr cells cname (elems ++ [e]))
          | none => .error .malformedStructure
        else if t = tLAYER then
          if pl.length = 2 then
            runCells rest (.inElem cells cname elems kind { p with layer := some (twosDecode 2 pl) })
          else .error .malformedStructure
        else if t = tDATATYPE then
          if pl.length = 2 then
            runCells rest (.inElem cells cname elems kind { p with dtype := some (twosDecode 2 pl) })
          else .error .malformedStructure
        else if t = tWIDTH then
          if pl.length = 4 then
            runCells rest (.inElem cells cname elems kind { p with width := some (twosDecode 4 pl) })
          else .error .malformedStructure
        else if t = tXY then
          if pl.length % 8 = 0 then
            runCells rest (.inElem cells cname elems kind { p with xy := some (decXY pl) })
          else .error .malformedStructure
        else if t = tSNAME then
          runCells rest (.inElem cells cname elems kind { p with sname := some (decStr pl) })
        else if t = tCOLROW then
          if pl.length = 4 then
            runCells rest (.inElem cells cname elems kind
              { p with colrow := some (debe (pl.take 2), debe (pl.drop 2)) })
          else .error .malformedStructure
        else if t = tSTRANS then
          match pl with
          | [b0, _] => runCells rest (.inElem cells cname elems kind { p with mirrored := some (128 ≤ b0) })
          | _ => .error .malformedStructure
        else if t = tMAG then
          match decReal pl with
          | some r => runCells rest (.inElem cells cname elems kind { p with mag := some r })
          | none => .error .malformedStructure
        else if t = tANGLE then
          match decReal pl with
          | some r => runCells rest (.inElem cells cname elems kind { p with angle := some r })
          | none => .error .malformedStructure
        else if t = tSTRING then
          runCells rest (.inElem cells cname elems kind { p with strv := some (decStr pl) })
        else .error .malformedStructure

/-- Drop leading unknown-tag records (skipped by the reader). -/
def skipUnknown (rs : List Rec) : List Rec :=
  rs.dropWhile (fun r => r.1 ∉ knownTags)

/-- Require the next known record to carry the given tag, returning its
payload and the remaining records. -/
def expectTag (t : Nat) (rs : List Rec) : Except LoadError (List Nat × List Rec) :=
  match skipUnknown rs with
  | [] => .error .unexpectedEndOfStream
  | (t', pl) :: rest => if t' = t then .ok (pl, rest) else .error .malformedStructure

/-- Decode the UNITS payload: two packed reals. -/
def decUnits (pl : List Nat) : Except LoadError (GdsReal × GdsReal) :=
  if pl.length = 16 then
    match decReal (pl.take 8), decReal (pl.drop 8) with
    | some u, some d => .ok (u, d)
    | _, _ => .error .malformedStructure
  else .error .malformedStructure

/-- Library-level grammar (spec section 4.2): `HEADER`, `BGNLIB`, `LIBNAME`
and `UNITS` before any `BGNSTR`, then the structure stream until `ENDLIB`. -/
def loadRecords (rs : List Rec) : Except LoadError Layout := do
  let (_, rs1) ← expectTag tHEADER rs
  let (_, rs2) ← expectTag tBGNLIB rs1
  let (plName, rs3) ← expectTag tLIBNAME rs2
  let (plUnits, rs4) ← expectTag tUNITS rs3
  let (uu, du) ← decUnits plUnits
  let cells ← runCells rs4 (.top [])
  pure ⟨decStr plName, uu, du, cells⟩

/-! ## Second pass: reference resolution and acyclicity (spec section 4.2)

Modelled from the spec: after the full stream is consumed, a second pass
validates acyclicity via depth-first traversal with a visiting/visited mark
per cell — a back edge to a currently-visiting cell raises
`CyclicReferenceError` — and then resolves every reference target. -/

/-- Successor names of a cell name in the layout's reference graph. -/
def succs (m : Layout) (n : String) : List String :=
  match m.cells.find? (fun c => c.name = n) with
  | some c => cellTargets c
  | none => []

/-- One edge of the reference graph: `b` is a target named by cell `a`. -/
def refEdge (m : Layout) (a b : String) : Prop := b ∈ succs m a

/-- A layout contains a reference cycle when some name reaches itself
through one or more reference edges. -/
def hasCycle (m : Layout) : Prop := ∃ n, Relation.TransGen (refEdge m) n n

/-- Depth-first visit of one name with visiting and visited marks; meeting
a currently-visiting name is a back edge and raises `CyclicReferenceError`.
Children are explored left to right with one less fuel unit. -/
def visit (g : String → List String) :
    Nat → String → List String → List String → Except LoadError (List String)
  | 0, _, _, _ => .error .cyclicReference
  | fuel + 1, n, visiting, visited =>
    if n ∈ visiting then .error .cyclicReference
    else if n ∈ visited then .ok visited
    else
      match (g n).foldlM (fun acc c => visit g fuel c (n :: visiting) acc) visited with
      | .error e => .error e
      | .ok v' => .ok (n :: v')

/-- Acyclicity check: depth-first traversal started from every cell. -/
def checkAcyclic (m : Layout) : Except LoadError (List String) :=
  (m.cells.map Cell.name).foldlM
    (fun visited n => visit (succs m) (m.cells.length + 2) n [] visited) []

/-- Resolution check: every reference target must name a cell of the same
layout; an unresolved target is fatal. -/
def checkResolved (m : Layout) : Except LoadError Unit :=
  if m.cells.all (fun c => (cellTargets c).all (fun t => (m.cells.map Cell.name).contains t))
  then .ok () else .error .malformedStructure

/-- The complete second pass: acyclicity first, then resolution. -/
def checkRefs (m : Layout) : Except LoadError Unit :=
  match checkAcyclic m with
  | .error e => .error e
  | .ok _ => checkResolved m

/-- Load a layout from a GDSII byte stream (spec section 6): split into
records, run the grammar state machine, then validate references. -/
def loadFromStream (s : List Nat) : Except LoadError Layout := do
  let rs ← recordize (s.length + 1) s
  let m ← loadRecords rs
  checkRefs m
  pure m

/-! ## GDSII encoding of a layout model

Modelled from the spec: the codec's symmetric `writeRecord` (section 4.1)
applied to the reader's grammar (section 4.2), producing one record stream
per layout — the `bytesOf` encoding of the round-trip property
(section 8). -/

/-- Encode a point list as an XY payload. -/
def encXY (pts : List (Int × Int)) : List Nat :=
  pts.flatMap (fun q => twosEncode 4 q.1 ++ twosEncode 4 q.2)

/-- Records shared by both reference kinds: `SNAME`, `STRANS`, `MAG`,
`ANGLE`. -/
def transRecs (tgt : String) (t : Transform) : List Rec :=
  [(tSNAME, encStr tgt), (tSTRANS, [cond t.mirrorX 128 0, 0]),
   (tMAG, encReal t.mag), (tANGLE, encReal t.angle)]

/-- Record sequence of one element, opener through `ENDEL`. -/
def elemRecs : Element → List Rec
  | .polygon l d pts =>
    [(tBOUNDARY, []), (tLAYER, twosEncode 2 l), (tDATATYPE, twosEncode 2 d),
     (tXY, encXY pts), (tENDEL, [])]
  | .pathEl l d w pts =>
    [(tPATH, []), (tLAYER, twosEncode 2 l), (tDATATYPE, twosEncode 2 d),
     (tWIDTH, twosEncode 4 w), (tXY, encXY pts), (tENDEL, [])]
  | .box l d pts =>
    [(tBOX, []), (tLAYER, twosEncode 2 l), (tDATATYPE, twosEncode 2 d),
     (tXY, encXY pts), (tENDEL, [])]
  | .text l d pos s =>
    [(tTEXT, []), (tLAYER, twosEncode 2 l), (tDATATYPE, twosEncode 2 d),
     (tXY, encXY [pos]), (tSTRING, encStr s), (tENDEL, [])]
  | .sref tgt t =>
    (tSREF, []) :: transRecs tgt t ++ [(tXY, encXY [(t.x, t.y)]), (tENDEL, [])]
  | .aref tgt t cols rows cv rv =>
    (tAREF, []) :: transRecs tgt t ++
    [(tCOLROW, be 2 cols ++ be 2 rows),
     (tXY, encXY [(t.x, t.y),
                  (t.x + cols * cv.1, t.y + cols * cv.2),
                  (t.x + rows * rv.1, t.y + rows * rv.2)]),
     (tENDEL, [])]

/-- Record sequence of one cell, `BGNSTR` through `ENDSTR`. -/
def cellRecs (c : Cell) : List Rec :=
  (tBGNSTR, []) :: (tSTRNAME, encStr c.name) :: c.elements.flatMap elemRecs ++ [(tENDSTR, [])]

/-- Record sequence of a whole layout, `HEADER` through the cells; `ENDLIB`
is appended at the byte level. -/
def layoutRecs (m : Layout) : List Rec :=
  [(tHEADER, twosEncode 2 600), (tBGNLIB, []), (tLIBNAME, encStr m.libName),
   (tUNITS, encReal m.userUnit ++ encReal m.dbUnit)] ++ m.cells.flatMap cellRecs

/-- Byte encoding of a record list. -/
def encRecs (rs : List Rec) : List Nat := rs.flatMap (fun r => encRecord r.1 r.2)

/-- The byte encoding of a layout model: its records followed by `ENDLIB`. -/
def bytesOf (m : Layout) : List Nat := encRecs (layoutRecs m) ++ encRecord tENDLIB []

/-! ## Encodability: layouts with no unsupported constructs

Modelled from the spec (sections 6 and 8): all fields within the format's
representable ranges, unique non-degenerate names, and a reference graph
that passes the second-pass validation. -/

/-- A printable ASCII character, excluding NUL. -/
def goodChar (c : Char) : Bool := 0 < c.toNat && c.toNat < 128

/-- A string storable in a single record. -/
def goodStr (s : String) : Bool := s.data.all goodChar && s.data.length ≤ 60000

/-- A value within the signed 2-byte range. -/
def i16ok (i : Int) : Bool := -32768 ≤ i && i < 32768

/-- A value within the signed 4-byte range. -/
def i32ok (i : Int) : Bool := -(2 ^ 31) ≤ i && i < 2 ^ 31

/-- A point list storable in a single record with in-range coordinates. -/
def ptsOk (pts : List (Int × Int)) : Bool :=
  pts.length ≤ 8000 && pts.all (fun q => i32ok q.1 && i32ok q.2)

/-- A wellformed format real. -/
def realOk (r : GdsReal) : Bool := decide r.wf

/-- A transform with wellformed reals and in-range translation. -/
def transformOk (t : Transform) : Bool :=
  realOk t.mag && realOk t.angle && i32ok t.x && i32ok t.y

/-- Elementwise encodability. -/
def elemOk : Element → Bool
  | .polygon l d pts => i16ok l && i16ok d && ptsOk pts
  | .pathEl l d w pts => i16ok l && i16ok d && i32ok w && ptsOk pts
  | .box l d pts => i16ok l && i16ok d && ptsOk pts
  | .text l d pos s => i16ok l && i16ok d && i32ok pos.1 && i32ok pos.2 && goodStr s
  | .sref tgt t => goodStr tgt && transformOk t
  | .aref tgt t cols rows cv rv =>
    goodStr tgt && transformOk t &&
    decide (1 ≤ cols) && decide (cols < 65536) &&
    decide (1 ≤ rows) && decide (rows < 65536) &&
    i32ok (t.x + cols * cv.1) && i32ok (t.y + cols * cv.2) &&
    i32ok (t.x + rows * rv.1) && i32ok (t.y + rows * rv.2)

/-- Cellwise encodability. -/
def cellOk (c : Cell) : Bool := goodStr c.name && c.elements.all elemOk

/-- A layout model with no unsupported constructs: representable fields,
unique cell names and a valid acyclic reference graph. -/
def encodable (m : Layout) : Bool :=
  goodStr m.libName && realOk m.userUnit && realOk m.dbUnit &&
  m.cells.all cellOk && decide ((m.cells.map Cell.name).Nodup) &&
  (match checkRefs m with | .ok _ => true | .error _ => false)

/-! ## OASIS Writer (spec section 4.4)

Modelled from the spec: modal variables for the current layer and datatype
compared before emission (presence bits in the record's info byte), seeded
to defaults at each cell boundary; variable-length integers with seven data
bits per byte; delta-encoded point lists; cell names written once through a
name-table record and referenced by a number assigned in first-seen order. -/

/-- Unsigned variable-length integer: seven data bits per byte, continuation
bit on every byte but the last. -/
def uleb (n : Nat) : List Nat :=
  if n < 128 then [n] else (n % 128 + 128) :: uleb (n / 128)
termination_by n
decreasing_by exact Nat.div_lt_self (by omega) (by omega)

/-- Signed variable-length integer: sign in the low bit, magnitude above. -/
def sleb (i : Int) : List Nat :=
  uleb (if i < 0 then 2 * i.natAbs + 1 else 2 * i.natAbs)

/-- Writer state: the modal layer and datatype plus the name table in
first-seen order. -/
structure WState where
  modalLayer : Option Int := none
  modalDtype : Option Int := none
  names : List String := []
deriving DecidableEq

/-- A length-prefixed byte string as the OASIS records carry it. -/
def oasStr (s : String) : List Nat := uleb s.data.length ++ s.data.map Char.toNat

/-- A CELLNAME name-table record carrying the string. -/
def cellnameRec (s : String) : List Nat := 3 :: oasStr s

/-- Reference number of a name: its first-seen index.  A name not yet in
the table is appended and its CELLNAME record is emitted once. -/
def nameRef (s : String) (st : WState) : Nat × List Nat × WState :=
  if s ∈ st.names then (st.names.indexOf s, [], st)
  else (st.names.length, cellnameRec s, { st with names := st.names ++ [s] })

/-- Emit layer and datatype against the modal state: an info byte with one
presence bit per emitted field, each field omitted when it equals the modal
value, and the modal values updated. -/
def emitLD (layer dtype : Int) (st : WState) : List Nat × WState :=
  let lpart := if st.modalLayer = some layer then ([], 0) else (sleb layer, 1)
  let dpart := if st.modalDtype = some dtype then ([], 0) else (sleb dtype, 2)
  ((lpart.2 + dpart.2) :: lpart.1 ++ dpart.1,
   { st with modalLayer := some layer, modalDtype := some dtype })

/-- Delta encoding of the points after the first, each relative to its
predecessor. -/
def deltaChain : Int × Int → List (Int × Int) → List Nat
  | _, [] => []
  | prev, q :: qs => sleb (q.1 - prev.1) ++ sleb (q.2 - prev.2) ++ deltaChain q qs

/-- A point list: count, absolute first point, then deltas. -/
def encPointList (pts : List (Int × Int)) : List Nat :=
  uleb pts.length ++
  (match pts with
   | [] => []
   | q :: qs => sleb q.1 ++ sleb q.2 ++ deltaChain q qs)

/-- OASIS bytes of one element, threading the writer state. -/
def writeElement : Element → WState → List Nat × WState
  | .polygon l d pts, st =>
    let (ld, st1) := emitLD l d st
    (21 :: ld ++ encPointList pts, st1)
  | .pathEl l d w pts, st =>
    let (ld, st1) := emitLD l d st
    (22 :: ld ++ sleb w ++ encPointList pts, st1)
  | .box l d pts, st =>
    let (ld, st1) := emitLD l d st
    (20 :: ld ++ encPointList pts, st1)
  | .text l d pos s, st =>
    let (ld, st1) := emitLD l d st
    (19 :: ld ++ sleb pos.1 ++ sleb pos.2 ++ oasStr s, st1)
  | .sref tgt t, st =>
    let (r, nb, st1) := nameRef tgt st
    (nb ++ 17 :: uleb r ++ sleb t.x ++ sleb t.y ++ encReal t.angle ++ encReal t.mag ++
       [cond t.mirrorX 1 0], st1)
  | .aref tgt t cols rows cv rv, st =>
    let (r, nb, st1) := nameRef tgt st
    (nb ++ 18 :: uleb r ++ sleb t.x ++ sleb t.y ++ uleb cols ++ uleb rows ++
       sleb cv.1 ++ sleb cv.2 ++ sleb rv.1 ++ sleb rv.2 ++
       encReal t.angle ++ encReal t.mag ++ [cond t.mirrorX 1 0], st1)

/-- OASIS bytes of an element sequence. -/
def writeElems : List Element → WState → List Nat × WState
  | [], st => ([], st)
  | e :: es, st =>
    let (b1, st1) := writeElement e st
    let (b2, st2) := writeElems es st1
    (b1 ++ b2, st2)

/-- OASIS bytes of one cell: modal state reset at the cell boundary, CELL
record by name reference, then the elements. -/
def writeCell (c : Cell) (st : WState) : List Nat × WState :=
  let st0 : WState := { st with modalLayer := none, modalDtype := none }
  let (r, nb, st1) := nameRef c.name st0
  let (eb, st2) := writeElems c.elements st1
  (nb ++ 13 :: uleb r ++ eb, st2)

/-- OASIS bytes of the cell sequence. -/
def writeCells : List Cell → WState → List Nat × WState
  | [], st => ([], st)
  | c :: cs, st =>
    let (b1, st1) := writeCell c st
    let (b2, st2) := writeCells cs st1
    (b1 ++ b2, st2)

/-- The OASIS magic bytes. -/
def oasisMagic : List Nat := [37, 83, 69, 77, 73, 45, 79, 65, 83, 73, 83, 13, 10]

/-- Encode a layout model as an OASIS byte stream: magic, START record
carrying the library name string and the two unit reals, cells from the
default writer state, END record. -/
def saveToStream (m : Layout) : List Nat :=
  oasisMagic ++ [1] ++ oasStr m.libName ++ encReal m.userUnit ++ encReal m.dbUnit ++
  (writeCells m.cells {}).1 ++ [2]

/-- The writer's final name table. -/
def writerNames (m : Layout) : List String := (writeCells m.cells {}).2.names

/-- Names in writer-traversal order: each cell's own name, then its
placement targets in element order. -/
def travNames (m : Layout) : List String :=
  m.cells.flatMap (fun c => c.name :: cellTargets c)

/-- First-seen deduplication relative to an accumulator. -/
def dedupeFrom (acc : List String) (l : List String) : List String :=
  l.foldl (fun a n => if n ∈ a then a else a ++ [n]) acc

/-- First-seen deduplication of a name list. -/
def dedupe (l : List String) : List String := dedupeFrom [] l

/-! ## OASIS Reader (the loading direction of the round trip)

Modelled from the spec: no OASIS reading code ships under src/, so the
decoder for the writer's byte streams is modelled from spec section 4.4's
format description, inverting each encoding device: varints with seven data
bits per byte, the modal layer and datatype resolved through the info
byte's presence bits and reseeded at every cell boundary, the name table
accumulated from CELLNAME records in first-seen order, and delta-encoded
point lists decoded back to absolute coordinates. -/

/-- Decode an unsigned varint: seven data bits per byte, little-endian
groups, continuation bit on every byte but the last. -/
def decUleb : List Nat → Option (Nat × List Nat)
  | [] => none
  | b :: rest =>
    if b < 128 then some (b, rest)
    else
      match decUleb rest with
      | some (n, rest1) => some (b % 128 + 128 * n, rest1)
      | none => none

/-- Decode a signed varint: sign in the low bit, magnitude above. -/
def decSleb (bs : List Nat) : Option (Int × List Nat) :=
  match decUleb bs with
  | some (n, rest) =>
    some (if n % 2 = 1 then -((n / 2 : Nat) : Int) else ((n / 2 : Nat) : Int), rest)
  | none => none

/-- Decode a length-prefixed byte string. -/
def decOasStr (bs : List Nat) : Option (String × List Nat) :=
  match decUleb bs with
  | some (n, rest) =>
    if n ≤ rest.length then
      some (String.mk ((rest.take n).map Char.ofNat), rest.drop n)
    else none
  | none => none

/-- Decode an eight-byte format real off the front of the stream. -/
def decReal8 : List Nat → Option (GdsReal × List Nat)
  | b0 :: b1 :: b2 :: b3 :: b4 :: b5 :: b6 :: b7 :: rest =>
    match decReal [b0, b1, b2, b3, b4, b5, b6, b7] with
    | some r => some (r, rest)
    | none => none
  | _ => none

/-- Decode `k` point deltas, each relative to its predecessor, back to
absolute coordinates. -/
def decDeltas : Nat → Int × Int → List Nat → Option (List (Int × Int) × List Nat)
  | 0, _, bs => some ([], bs)
  | k + 1, prev, bs =>
    match decSleb bs with
    | some (dx, bs1) =>
      match decSleb bs1 with
      | some (dy, bs2) =>
        match decDeltas k (prev.1 + dx, prev.2 + dy) bs2 with
        | some (qs, bs3) => some ((prev.1 + dx, prev.2 + dy) :: qs, bs3)
        | none => none
      | none => none
    | none => none

/-- Decode a point list: count, absolute first point, then deltas. -/
def decPointList (bs : List Nat) : Option (List (Int × Int) × List Nat) :=
  match decUleb bs with
  | some (0, rest) => some ([], rest)
  | some (k + 1, rest) =>
    match decSleb rest with
    | some (x, bs1) =>
      match decSleb bs1 with
      | some (y, bs2) =>
        match decDeltas k (x, y) bs2 with
        | some (qs, bs3) => some ((x, y) :: qs, bs3)
        | none => none
      | none => none
    | none => none
  | none => none

/-- Resolve layer and datatype against the modal state from an info byte: a
present field is read and updates the modal value, an absent field takes
the current modal value (failing when none has been set in this cell). -/
def decLD (info : Nat) (st : WState) (bs : List Nat) :
    Option (Int × Int × WState × List Nat) :=
  match (if info % 2 = 1 then decSleb bs
         else st.modalLayer.map (fun l => (l, bs))) with
  | some (l, bs1) =>
    match (if info / 2 % 2 = 1 then decSleb bs1
           else st.modalDtype.map (fun d => (d, bs1))) with
    | some (d, bs2) =>
      some (l, d, { st with modalLayer := some l, modalDtype := some d }, bs2)
    | none => none
  | none => none

/-- Close the cell under construction, if any, appending it to the
finished-cell list. -/
def closeCur : Option (String × List Element) → List Cell → List Cell
  | some (cn, elems), acc => acc ++ [⟨cn, elems⟩]
  | none, acc => acc

set_option maxHeartbeats 1000000 in
/-- The record loop of the OASIS reading direction.  `fuel` bounds the
record count (every record occupies at least one byte), `cur` is the cell
opened by the last CELL record and `acc` the finished cells.  A CELLNAME
record extends the name table, a CELL record closes the previous cell,
reseeds the modal state and opens a new one by name reference, element
records extend the open cell, and END closes the last cell and returns. -/
def loadOasGo : Nat → List Nat → WState → Option (String × List Element) →
    List Cell → Option (List Cell)
  | 0, _, _, _, _ => none
  | fuel + 1, bs, st, cur, acc =>
    match bs with
    | [] => none
    | b :: rest =>
      if b = 2 then some (closeCur cur acc)
      else if b = 3 then do
        let (s, rest1) ← decOasStr rest
        loadOasGo fuel rest1 { st with names := st.names ++ [s] } cur acc
      else if b = 13 then do
        let (r, rest1) ← decUleb rest
        let name ← st.names[r]?
        loadOasGo fuel rest1 { st with modalLayer := none, modalDtype := none }
          (some (name, [])) (closeCur cur acc)
      else if b = 21 then do
        let (cn, elems) ← cur
        match rest with
        | info :: rest1 => do
          let (l, d, st1, bs1) ← decLD info st rest1
          let (pts, bs2) ← decPointList bs1
          loadOasGo fuel bs2 st1 (some (cn, elems ++ [.polygon l d pts])) acc
        | [] => none
      else if b = 22 then do
        let (cn, elems) ← cur
        match rest with
        | info :: rest1 => do
          let (l, d, st1, bs1) ← decLD info st rest1
          let (w, bs2) ← decSleb bs1
          let (pts, bs3) ← decPointList bs2
          loadOasGo fuel bs3 st1 (some (cn, elems ++ [.pathEl l d w pts])) acc
        | [] => none
      else if b = 20 then do
        let (cn, elems) ← cur
        match rest with
        | info :: rest1 => do
          let (l, d, st1, bs1) ← decLD info st rest1
          let (pts, bs2) ← decPointList bs1
          loadOasGo fuel bs2 st1 (some (cn, elems ++ [.box l d pts])) acc
        | [] => none
      else if b = 19 then do
        let (cn, elems) ← cur
        match rest with
        | info :: rest1 => do
          let (l, d, st1, bs1) ← decLD info st rest1
          let (x, bs2) ← decSleb bs1
          let (y, bs3) ← decSleb bs2
          let (s, bs4) ← decOasStr bs3
          loadOasGo fuel bs4 st1 (some (cn, elems ++ [.text l d (x, y) s])) acc
        | [] => none
      else if b = 17 then do
        let (cn, elems) ← cur
        let (r, bs1) ← decUleb rest
        let tgt ← st.names[r]?
        let (x, bs2) ← decSleb bs1
        let (y, bs3) ← decSleb bs2
        let (ang, bs4) ← decReal8 bs3
        let (mg, bs5) ← decReal8 bs4
        match bs5 with
        | mb :: bs6 =>
          loadOasGo fuel bs6 st
            (some (cn, elems ++ [.sref tgt ⟨decide (mb = 1), mg, ang, x, y⟩])) acc
        | [] => none
      else if b = 18 then do
        let (cn, elems) ← cur
        let (r, bs1) ← decUleb rest
        let tgt ← st.names[r]?
        let (x, bs2) ← decSleb bs1
        let (y, bs3) ← decSleb bs2
        let (cols, bs4) ← decUleb bs3
        let (rows, bs5) ← decUleb bs4
        let (cv1, bs6) ← decSleb bs5
        let (cv2, bs7) ← decSleb bs6
        let (rv1, bs8) ← decSleb bs7
        let (rv2, bs9) ← decSleb bs8
        let (ang, bs10) ← decReal8 bs9
        let (mg, bs11) ← decReal8 bs10
        match bs11 with
        | mb :: bs12 =>
          loadOasGo fuel bs12 st
            (some (cn, elems ++ [.aref tgt ⟨decide (mb = 1), mg, ang, x, y⟩ cols rows
              (cv1, cv2) (rv1, rv2)])) acc
        | [] => none
      else none

/-- The running open-cell/finished-cell pair the record loop reaches after
one CELL record per cell of the list. -/
def foldCells : List Cell → Option (String × List Element) → List Cell →
    Option (String × List Element) × List Cell
  | [], cur, acc => (cur, acc)
  | c :: cs, cur, acc => foldCells cs (some (c.name, c.elements)) (closeCur cur acc)

/-- Decode an OASIS byte stream of the writer's shape: magic bytes, START
record carrying the library name and the two unit reals, the record loop,
END record. -/
def loadOasStream (s : List Nat) : Option Layout :=
  if s.take 14 = oasisMagic ++ [1] then
    let rest := s.drop 14
    match decOasStr rest with
    | some (lib, bs1) =>
      match decReal8 bs1 with
      | some (uu, bs2) =>
        match decReal8 bs2 with
        | some (du, bs3) =>
          match loadOasGo (bs3.length + 1) bs3 {} none [] with
          | some cells => some ⟨lib, uu, du, cells⟩
          | none => none
        | none => none
      | none => none
    | none => none
  else none

/-! ## Transform Algebra (spec section 4.3)

Modelled from the spec: pure functions; `applyToPoint` applies
magnification, mirror, rotation, then translation, in that fixed order;
array references expand to one instance per lattice cell, the base
transform composed first and the lattice offset added after. -/

/-- A transform with real-valued magnification and rotation angle in
degrees, as the transform algebra manipulates it. -/
structure RTransform where
  mirrorX : Bool
  magF : ℝ
  angleDeg : ℝ
  tx : Int
  ty : Int

/-- Magnification stage: both axes scaled uniformly. -/
def raMag (t : RTransform) (p : ℝ × ℝ) : ℝ × ℝ := (t.magF * p.1, t.magF * p.2)

/-- Mirror stage: reflection about the x axis when the flag is set. -/
def raMirror (t : RTransform) (p : ℝ × ℝ) : ℝ × ℝ :=
  if t.mirrorX then (p.1, -p.2) else p

/-- Rotation stage by the transform's angle in degrees. -/
noncomputable def raRotate (t : RTransform) (p : ℝ × ℝ) : ℝ × ℝ :=
  (Real.cos (t.angleDeg * Real.pi / 180) * p.1 - Real.sin (t.angleDeg * Real.pi / 180) * p.2,
   Real.sin (t.angleDeg * Real.pi / 180) * p.1 + Real.cos (t.angleDeg * Real.pi / 180) * p.2)

/-- Translation stage by the transform's integer translation vector. -/
def raTranslate (t : RTransform) (p : ℝ × ℝ) : ℝ × ℝ := (p.1 + t.tx, p.2 + t.ty)

/-- Apply a transform to a point: magnification, mirror, rotation, then
translation, in that fixed order (written as one closed formula). -/
noncomputable def applyToPoint (t : RTransform) (p : ℝ × ℝ) : ℝ × ℝ :=
  let c := Real.cos (t.angleDeg * Real.pi / 180)
  let s := Real.sin (t.angleDeg * Real.pi / 180)
  let mx := t.magF * p.1
  let my0 := t.magF * p.2
  let my := if t.mirrorX then -my0 else my0
  (c * mx - s * my + t.tx, s * mx + c * my + t.ty)

/-- The identity transform of the algebra. -/
def idRT : RTransform := ⟨false, 1, 0, 0, 0⟩

/-- Lattice offsets of an array reference: columns vary fastest within each
row, offsets `col * colVec + row * rowVec`. -/
def arrayOffsets (cols rows : Nat) (cv rv : Int × Int) : List (Int × Int) :=
  (List.range rows).flatMap (fun r =>
    (List.range cols).map (fun c =>
      ((c : Int) * cv.1 + (r : Int) * rv.1, (c : Int) * cv.2 + (r : Int) * rv.2)))

/-- Resolve an array reference acting on one point of the target cell: the
base transform composed first, then each lattice offset added. -/
noncomputable def resolveArray (base : RTransform) (cols rows : Nat)
    (cv rv : Int × Int) (p : ℝ × ℝ) : List (ℝ × ℝ) :=
  (arrayOffsets cols rows cv rv).map (fun o =>
    ((applyToPoint base p).1 + o.1, (applyToPoint base p).2 + o.2))

/-! ## Gosper-curve generator (src/python/generate_gosper.py)

Direct embedding of `lsystem_instructions`, `turtle_path` and
`fit_to_viewbox`.  L-system strings become symbol lists; the turtle's float
state is embedded over the reals; `fit_to_viewbox` is pure field arithmetic
and is embedded over the rationals, with the `ValueError` that Python's
`min`/`max` raise on an empty sequence embedded as `none`. -/

/-- The alphabet of the Gosper L-system: `A`, `B`, `+`, `-`. -/
inductive GSym where
  | A | B | plus | minus
deriving DecidableEq

/-- RULE_A = "A-B--B+A++AA+B-". -/
def ruleA : List GSym :=
  [.A, .minus, .B, .minus, .minus, .B, .plus, .A, .plus, .plus, .A, .A, .plus, .B, .minus]

/-- RULE_B = "+A-BB--B-A++A+B". -/
def ruleB : List GSym :=
  [.plus, .A, .minus, .B, .B, .minus, .minus, .B, .minus, .A, .plus, .plus, .A, .plus, .B]

/-- One character's rewrite: `A` and `B` by their rules, `+` and `-` fixed. -/
def applyRule : GSym → List GSym
  | .A => ruleA
  | .B => ruleB
  | s => [s]

/-- One rewriting pass over the instruction string. -/
def lsystemStep (s : List GSym) : List GSym := s.flatMap applyRule

/-- `lsystem_instructions(order)`: `order` rewriting passes from `"A"`. -/
def lsystemInstructions : Nat → List GSym
  | 0 => [.A]
  | n + 1 => lsystemStep (lsystemInstructions n)

/-- Whether a symbol is a drawing move (`A` or `B`). -/
def isAB : GSym → Bool
  | .A => true
  | .B => true
  | _ => false

/-- Number of drawing moves in an instruction list. -/
def countAB (s : List GSym) : Nat := (s.filter isAB).length

/-- The turn angle: `np.radians(60.0)`. -/
noncomputable def turnAngle : ℝ := Real.pi / 3

/-- The turtle's visited points after the start point: `A`/`B` step forward
along the heading, `+`/`-` turn by sixty degrees. -/
noncomputable def turtleAux (step : ℝ) : List GSym → ℝ × ℝ → ℝ → List (ℝ × ℝ)
  | [], _, _ => []
  | .A :: r, q, θ =>
    let q' := (q.1 + step * Real.cos θ, q.2 + step * Real.sin θ)
    q' :: turtleAux step r q' θ
  | .B :: r, q, θ =>
    let q' := (q.1 + step * Real.cos θ, q.2 + step * Real.sin θ)
    q' :: turtleAux step r q' θ
  | .plus :: r, q, θ => turtleAux step r q (θ + turnAngle)
  | .minus :: r, q, θ => turtleAux step r q (θ - turnAngle)

/-- `turtle_path(instr, step)`: the start point `(0.0, 0.0)` followed by the
points the turtle visits. -/
noncomputable def turtlePath (instr : List GSym) (step : ℝ) : List (ℝ × ℝ) :=
  (0, 0) :: turtleAux step instr (0, 0) 0

/-- Python's `min` over a non-empty sequence, as a fold from its head. -/
def foldMin (a : ℚ) (l : List ℚ) : ℚ := l.foldl min a

/-- Python's `max` over a non-empty sequence, as a fold from its head. -/
def foldMax (a : ℚ) (l : List ℚ) : ℚ := l.foldl max a

/-- `fit_to_viewbox(points, size, margin)`: scale the bounding box to
`size - 2 * margin`, centre at `(size / 2, size / 2)`, flip the y axis;
`none` embeds the `ValueError` Python raises on an empty sequence. -/
def fitToViewbox (points : List (ℚ × ℚ)) (size : ℚ) (margin : ℚ) :
    Option (List (ℚ × ℚ)) :=
  match points with
  | [] => none
  | p :: ps =>
    let xmin := foldMin p.1 (ps.map Prod.fst)
    let xmax := foldMax p.1 (ps.map Prod.fst)
    let ymin := foldMin p.2 (ps.map Prod.snd)
    let ymax := foldMax p.2 (ps.map Prod.snd)
    let w := max (1 / 1000000000) (xmax - xmin)
    let hh := max (1 / 1000000000) (ymax - ymin)
    let scale := (size - 2 * margin) / max w hh
    let cx := (xmin + xmax) / 2
    let cy := (ymin + ymax) / 2
    some ((p :: ps).map (fun q =>
      ((q.1 - cx) * scale + size / 2, (cy - q.2) * scale + size / 2)))

/-! ## Python wrapper (src/python/goasper/init)

Direct embedding of the `Layout` wrapper class: it holds an inner engine
object and delegates every operation to it, converting the path argument
with `str`.  The native engine is abstract here — a record of operations
over an opaque state type — exactly because the wrapper's behaviour must
not depend on it. -/

/-- The native engine's interface: the state type behind `PyLayout` and its
three operations. -/
structure LowLevel where
  State : Type
  loadGds : State → String → State
  saveOas : State → String → List Nat
  cellNames : State → List String

/-- A Python argument acceptable where a path is expected: an `str` or a
`pathlib.Path`; `str()` of either yields its string form. -/
inductive PyVal where
  | str (s : String)
  | path (s : String)

/-- Python's `str()` applied to a path-like argument. -/
def pyStr : PyVal → String
  | .str s => s
  | .path s => s

namespace Py

/-- The wrapper object: holds only the inner engine state. -/
structure Layout (E : LowLevel) where
  inner : E.State

/-- `Layout.load_gds`: forwards `str(path)` to the engine. -/
def Layout.load_gds {E : LowLevel} (self : Layout E) (path : PyVal) : Layout E :=
  ⟨E.loadGds self.inner (pyStr path)⟩

/-- `Layout.save_oas`: forwards `str(path)` to the engine. -/
def Layout.save_oas {E : LowLevel} (self : Layout E) (path : PyVal) : List Nat :=
  E.saveOas self.inner (pyStr path)

/-- `Layout.cells`: returns the engine's `cell_names()` unchanged. -/
def Layout.cells {E : LowLevel} (self : Layout E) : List String :=
  E.cellNames self.inner

end Py

/-! ## Concrete example layouts -/

/-- A library declaring `via`, `nand2`, `inv1`, `abc2` in that order, with
reference relationships (including a forward reference) among them. -/
def exampleModel : Layout :=
  ⟨"LIB", gdsOne, gdsOne,
   [⟨"via", [.polygon 1 0 [(0, 0), (10, 0), (10, 10), (0, 10), (0, 0)]]⟩,
    ⟨"nand2", [.sref "via" idTransform, .sref "abc2" ⟨false, gdsOne, gdsZero, 5, 5⟩]⟩,
    ⟨"inv1", [.sref "nand2" idTransform]⟩,
    ⟨"abc2", [.pathEl 2 0 4 [(0, 0), (20, 0)]]⟩]⟩

/-- A two-cell layout in which `A` references `B` and `B` references `A`. -/
def cyclicModel : Layout :=
  ⟨"LIB", gdsOne, gdsOne,
   [⟨"A", [.sref "B" idTransform]⟩,
    ⟨"B", [.sref "A" idTransform]⟩]⟩

/-- A record writable by the codec: even payload length, total record length
within the two length bytes, tag within the two tag bytes. -/
def WfRec (r : Rec) : Prop :=
  r.2.length % 2 = 0 ∧ r.2.length + 4 < 65536 ∧ r.1 < 65536

instance (r : Rec) : Decidable (WfRec r) := by unfold WfRec; infer_instance


/-- The parse phase of loading: record split and grammar, before the
reference-validation pass. -/
def parsePhase (s : List Nat) : Except LoadError Layout := do
  let rs ← recordize (s.length + 1) s
  loadRecords rs

/-- A visited list in post-order: the head is not repeated, its successors
all occur later, and the tail is itself post-ordered. -/
def TopoList (g : String → List String) : List String → Prop
  | [] => True
  | x :: xs => x ∉ xs ∧ (∀ b ∈ g x, b ∈ xs) ∧ TopoList g xs

/-! # Theorems -/

/-! ## Byte-primitive lemmas -/

theorem be_length (k n : Nat) : (be k n).length = k := by
  induction k generalizing n with
  | zero => rfl
  | succ k ih => simp [be, ih]

theorem debe_append (xs : List Nat) (b : Nat) :
    debe (xs ++ [b]) = 256 * debe xs + b := by
  simp [debe, List.foldl_append, Nat.mul_comm]

theorem debe_be (k n : Nat) : debe (be k n) = n % 256 ^ k := by
  induction k generalizing n with
  | zero => simp [be, debe, Nat.mod_one]
  | succ k ih =>
    rw [be, debe_append, ih]
    have h : (256 : Nat) ^ (k + 1) = 256 * 256 ^ k := by ring
    have h2 : n % (256 * 256 ^ k) = n % 256 + 256 * (n / 256 % 256 ^ k) := Nat.mod_mul
    rw [h, h2]
    ring

theorem debe_be_of_lt {k n : Nat} (h : n < 256 ^ k) : debe (be k n) = n := by
  rw [debe_be, Nat.mod_eq_of_lt h]

theorem pow256_eq (k : Nat) : (256 : Nat) ^ k = 2 ^ (8 * k) := by
  rw [pow_mul]
  norm_num

theorem twosDecode_encode {k : Nat} (hk : 1 ≤ k) {i : Int}
    (h1 : -(2 ^ (8 * k - 1)) ≤ i) (h2 : i < 2 ^ (8 * k - 1)) :
    twosDecode k (twosEncode k i) = i := by
  have hM : (2 : Int) ^ (8 * k) = 2 ^ (8 * k - 1) * 2 := by
    rw [← pow_succ]
    congr 1
    omega
  set H : Int := 2 ^ (8 * k - 1) with hH
  have hHpos : 0 < H := by positivity
  have hMpos : (0 : Int) < 2 ^ (8 * k) := by positivity
  have hemod : i.emod (2 ^ (8 * k)) = if 0 ≤ i then i else i + 2 ^ (8 * k) := by
    by_cases hi : 0 ≤ i
    · rw [if_pos hi]
      exact Int.emod_eq_of_lt hi (by omega)
    · rw [if_neg hi]
      have h3 : (i + 2 ^ (8 * k)).emod (2 ^ (8 * k)) = i.emod (2 ^ (8 * k)) := by
        conv_lhs => rw [show i + 2 ^ (8 * k) = i + 2 ^ (8 * k) * 1 by ring]
        exact Int.add_mul_emod_self_left i (2 ^ (8 * k)) 1
      rw [← h3]
      exact Int.emod_eq_of_lt (by omega) (by omega)
  have hcast : ((2 ^ (8 * k - 1) : Nat) : Int) = H := by
    push_cast
    rfl
  unfold twosEncode twosDecode
  rw [debe_be_of_lt]
  · by_cases hi : 0 ≤ i
    · have hv : (i.emod (2 ^ (8 * k))).toNat = i.toNat := by
        rw [hemod, if_pos hi]
      rw [hv]
      rw [if_pos]
      · omega
      · omega
    · have hv : ((i.emod (2 ^ (8 * k))).toNat : Int) = i + 2 ^ (8 * k) := by
        rw [hemod, if_neg hi]
        omega
      rw [if_neg]
      · omega
      · omega
  · rw [pow256_eq]
    have h5 : (0 : Int) ≤ i.emod (2 ^ (8 * k)) := Int.emod_nonneg i (by positivity)
    have hlt : i.emod (2 ^ (8 * k)) < 2 ^ (8 * k) := Int.emod_lt_of_pos i hMpos
    have hcast2 : ((2 ^ (8 * k) : Nat) : Int) = 2 ^ (8 * k) := by
      push_cast
      rfl
    omega

theorem stripNul_of_no_zero {l : List Nat} (h : ∀ b ∈ l, b ≠ 0) : stripNul l = l := by
  unfold stripNul
  rcases hrev : l.reverse with _ | ⟨b, tl⟩
  · simpa using congrArg List.reverse hrev
  · have hb : b ∈ l := by
      rw [← List.mem_reverse, hrev]
      exact List.mem_cons_self b tl
    rw [List.dropWhile_cons, if_neg (by simpa using h b hb)]
    have h2 := congrArg List.reverse hrev
    simp only [List.reverse_reverse] at h2
    simp [h2]

theorem stripNul_append_zero (l : List Nat) : stripNul (l ++ [0]) = stripNul l := by
  unfold stripNul
  rw [List.reverse_append]
  simp [List.dropWhile_cons]

theorem char_ofNat_toNat {c : Char} (h : c.toNat < 128) :
    Char.ofNat c.toNat = c := by
  have hv : c.toNat.isValidChar := Or.inl (by omega)
  apply Char.eq_of_val_eq
  simp only [Char.ofNat, hv, dite_true]
  unfold Char.ofNatAux
  apply UInt32.eq_of_toBitVec_eq
  apply BitVec.eq_of_toNat_eq
  simp [Char.toNat, UInt32.toNat]

theorem decStr_encStr {s : String} (h : goodStr s = true) : decStr (encStr s) = s := by
  simp only [goodStr, Bool.and_eq_true, List.all_eq_true, decide_eq_true_eq] at h
  have hnz : ∀ b ∈ s.data.map Char.toNat, b ≠ 0 := by
    intro b hb
    rcases List.mem_map.mp hb with ⟨c, hc, rfl⟩
    have := h.1 c hc
    simp only [goodChar, Bool.and_eq_true, decide_eq_true_eq] at this
    omega
  have hstrip : stripNul (encStr s) = s.data.map Char.toNat := by
    unfold encStr
    by_cases hpar : (s.data.map Char.toNat).length % 2 = 0
    · rw [if_pos hpar]
      exact stripNul_of_no_zero hnz
    · rw [if_neg hpar, stripNul_append_zero]
      exact stripNul_of_no_zero hnz
  unfold decStr
  rw [hstrip, List.map_map]
  have hmap : s.data.map (Char.ofNat ∘ Char.toNat) = s.data.map id := by
    apply List.map_congr_left
    intro c hc
    have hc' := h.1 c hc
    simp only [goodChar, Bool.and_eq_true, decide_eq_true_eq] at hc'
    exact char_ofNat_toNat hc'.2
  rw [hmap, List.map_id]

theorem decReal_encReal {r : GdsReal} (h : r.wf) : decReal (encReal r) = some r := by
  obtain ⟨hexp, hmant⟩ := h
  have hm : debe (be 7 r.mant) = r.mant := debe_be_of_lt (by norm_num; omega)
  have hl : (be 7 r.mant).length = 7 := be_length 7 r.mant
  rcases r with ⟨neg, exp, mant⟩
  simp only at hexp hmant hm hl
  cases neg
  · simp [encReal, decReal, hl, hm]
    omega
  · simp [encReal, decReal, hl, hm]
    omega

theorem twosEncode_length (k : Nat) (i : Int) : (twosEncode k i).length = k := by
  unfold twosEncode
  exact be_length k _

theorem encXY_length (pts : List (Int × Int)) : (encXY pts).length = 8 * pts.length := by
  induction pts with
  | nil => rfl
  | cons q ps ih =>
    have hstep : encXY (q :: ps) = (twosEncode 4 q.1 ++ twosEncode 4 q.2) ++ encXY ps := by
      simp [encXY, List.flatMap_cons]
    rw [hstep, List.length_append, ih]
    have h8 : (twosEncode 4 q.1 ++ twosEncode 4 q.2).length = 8 := by
      rw [List.length_append, twosEncode_length, twosEncode_length]
    rw [h8, List.length_cons]
    ring

theorem be_four (n : Nat) :
    be 4 n = [n / 256 / 256 / 256 % 256, n / 256 / 256 % 256, n / 256 % 256, n % 256] := by
  simp [be]

theorem decXY_encXY {pts : List (Int × Int)}
    (h : ∀ q ∈ pts, (i32ok q.1 && i32ok q.2) = true) : decXY (encXY pts) = pts := by
  induction pts with
  | nil => rfl
  | cons q ps ih =>
    have hq := h q (List.mem_cons_self q ps)
    simp only [Bool.and_eq_true, i32ok, decide_eq_true_eq] at hq
    have hx : twosDecode 4 (twosEncode 4 q.1) = q.1 :=
      twosDecode_encode (by omega) (by norm_num; omega) (by norm_num; omega)
    have hy : twosDecode 4 (twosEncode 4 q.2) = q.2 :=
      twosDecode_encode (by omega) (by norm_num; omega) (by norm_num; omega)
    have hshape : encXY (q :: ps) = twosEncode 4 q.1 ++ (twosEncode 4 q.2 ++ encXY ps) := by
      simp [encXY, List.flatMap_cons]
    rw [hshape]
    show decXY (be 4 (q.1.emod (2 ^ (8 * 4))).toNat ++
      (be 4 (q.2.emod (2 ^ (8 * 4))).toNat ++ encXY ps)) = q :: ps
    rw [be_four, be_four]
    simp only [List.cons_append, List.nil_append]
    rw [decXY, ← be_four, ← be_four]
    show (twosDecode 4 (twosEncode 4 q.1), twosDecode 4 (twosEncode 4 q.2)) ::
      decXY (encXY ps) = q :: ps
    rw [hx, hy, ih (fun q hq => h q (List.mem_cons_of_mem _ hq))]

/-! ## Record codec lemmas -/

theorem be_two (n : Nat) : be 2 n = [n / 256 % 256, n % 256] := by
  simp [be]

theorem readRecord_enc {t : Nat} {p : List Nat} (ht : t < 65536)
    (hev : p.length % 2 = 0) (hlen : p.length + 4 < 65536) (rest : List Nat) :
    readRecord (encRecord t p ++ rest) = .ok ((t, p), rest) := by
  have hL : (p.length + 4) / 256 % 256 * 256 + (p.length + 4) % 256 = p.length + 4 := by
    omega
  have hT : t / 256 % 256 * 256 + t % 256 = t := by omega
  rw [encRecord, be_two, be_two]
  simp only [List.cons_append, List.nil_append, List.append_assoc]
  rw [readRecord]
  simp only [hL, hT]
  rw [if_neg (by omega), if_neg (by omega), if_neg (by simp)]
  have h44 : p.length + 4 - 4 = p.length := by omega
  rw [h44, List.take_left' rfl, List.drop_left' rfl]

theorem encRecord_ne_nil (t : Nat) (p : List Nat) : encRecord t p ≠ [] := by
  simp [encRecord, be_two]

/-- Tags of a record list. -/
theorem recordize_append {rs : List Rec} (hwf : ∀ r ∈ rs, WfRec r)
    (hne : ∀ r ∈ rs, r.1 ≠ tENDLIB) :
    ∀ fuel tail, rs.length < fuel →
      recordize fuel (encRecs rs ++ tail) =
        (recordize (fuel - rs.length) tail).map (fun x => rs ++ x) := by
  induction rs with
  | nil =>
    intro fuel tail _
    simp only [encRecs, List.flatMap_nil, List.nil_append, Nat.sub_zero]
    cases h : recordize fuel tail <;> simp [Except.map, h]
  | cons r rs ih =>
    intro fuel tail hfuel
    obtain ⟨fuel, rfl⟩ : ∃ f, fuel = f + 1 := ⟨fuel - 1, by omega⟩
    have hwfr := hwf r (List.mem_cons_self r rs)
    obtain ⟨hev, hlen, ht⟩ := hwfr
    have hshape : encRecs (r :: rs) ++ tail = encRecord r.1 r.2 ++ (encRecs rs ++ tail) := by
      simp [encRecs, List.flatMap_cons, List.append_assoc]
    rw [hshape, recordize]
    have hnonempty : ¬ (encRecord r.1 r.2 ++ (encRecs rs ++ tail)).isEmpty := by
      simp [List.isEmpty_iff, encRecord, be_two]
    rw [if_neg hnonempty]
    rw [readRecord_enc ht hev hlen]
    simp only
    rw [if_neg (by simpa using hne r (List.mem_cons_self r rs))]
    rw [ih (fun x hx => hwf x (List.mem_cons_of_mem _ hx))
        (fun x hx => hne x (List.mem_cons_of_mem _ hx)) fuel tail (by simpa using hfuel)]
    simp only [List.length_cons]
    have hsub : fuel + 1 - (rs.length + 1) = fuel - rs.length := by omega
    rw [hsub]
    cases recordize (fuel - rs.length) tail <;> simp [Except.map, Prod.mk.eta]

theorem encRecord_length (t : Nat) (p : List Nat) :
    (encRecord t p).length = p.length + 4 := by
  simp [encRecord, be_two]

theorem encRecs_length_ge (rs : List Rec) : rs.length ≤ (encRecs rs).length := by
  induction rs with
  | nil => simp [encRecs]
  | cons r rs ih =>
    have : encRecs (r :: rs) = encRecord r.1 r.2 ++ encRecs rs := by
      simp [encRecs, List.flatMap_cons]
    rw [this, List.length_append, encRecord_length, List.length_cons]
    omega

theorem recordize_to_endlib {rs : List Rec} (hwf : ∀ r ∈ rs, WfRec r)
    (hne : ∀ r ∈ rs, r.1 ≠ tENDLIB) (fuel : Nat) (tail : List Nat)
    (hfuel : rs.length < fuel) :
    recordize fuel (encRecs rs ++ (encRecord tENDLIB [] ++ tail)) =
      .ok (rs ++ [(tENDLIB, [])]) := by
  rw [recordize_append hwf hne fuel _ hfuel]
  obtain ⟨f, hf⟩ : ∃ f, fuel - rs.length = f + 1 := ⟨fuel - rs.length - 1, by omega⟩
  rw [hf, recordize]
  rw [if_neg (by simp [List.isEmpty_iff, encRecord, be_two])]
  rw [readRecord_enc (by norm_num [tENDLIB]) (by simp) (by simp) tail]
  simp [Except.map]

theorem recordize_no_endlib {rs : List Rec} (hwf : ∀ r ∈ rs, WfRec r)
    (hne : ∀ r ∈ rs, r.1 ≠ tENDLIB) (fuel : Nat) (hfuel : rs.length < fuel) :
    recordize fuel (encRecs rs) = .error .unexpectedEndOfStream := by
  have h0 : encRecs rs = encRecs rs ++ ([] : List Nat) := by simp
  rw [h0, recordize_append hwf hne fuel [] hfuel]
  cases hf : fuel - rs.length with
  | zero => simp [recordize, Except.map]
  | succ f => simp [recordize, Except.map]

theorem readRecord_take {t : Nat} {p : List Nat} (hev : p.length % 2 = 0)
    (hlen : p.length + 4 < 65536)
    {k : Nat} (hk1 : 0 < k) (hk2 : k < (encRecord t p).length) :
    readRecord ((encRecord t p).take k) = .error .truncatedStream := by
  rw [encRecord_length] at hk2
  rw [encRecord, be_two, be_two]
  simp only [List.cons_append, List.nil_append]
  by_cases hk4 : k < 4
  · interval_cases k
    · simp [readRecord, List.take_succ_cons]
    · simp [readRecord, List.take_succ_cons]
    · simp [readRecord, List.take_succ_cons]
  · obtain ⟨k', rfl⟩ : ∃ k', k = k' + 4 := ⟨k - 4, by omega⟩
    simp only [List.take_succ_cons]
    rw [readRecord]
    have hL : (p.length + 4) / 256 % 256 * 256 + (p.length + 4) % 256 = p.length + 4 := by
      omega
    simp only [hL]
    rw [if_neg (by omega), if_neg (by omega), if_pos]
    have htk : (p.take k').length = k' := by
      rw [List.length_take]
      omega
    rw [htk]
    omega

theorem loadFromStream_recordize_error {s : List Nat} {e : LoadError}
    (h : recordize (s.length + 1) s = .error e) : loadFromStream s = .error e := by
  unfold loadFromStream
  rw [h]
  rfl

theorem loadFromStream_recordize_ok {s : List Nat} {rs : List Rec}
    (h : recordize (s.length + 1) s = .ok rs) :
    loadFromStream s = (do
      let m ← loadRecords rs
      checkRefs m
      pure m) := by
  unfold loadFromStream
  rw [h]
  rfl

theorem load_truncated {rs : List Rec} (hwf : ∀ r ∈ rs, WfRec r)
    (hne : ∀ r ∈ rs, r.1 ≠ tENDLIB) {t : Nat} {p : List Nat}
    (hev : p.length % 2 = 0) (hlen : p.length + 4 < 65536)
    {k : Nat} (hk1 : 0 < k) (hk2 : k < (encRecord t p).length) :
    loadFromStream (encRecs rs ++ (encRecord t p).take k) = .error .truncatedStream := by
  apply loadFromStream_recordize_error
  set s := encRecs rs ++ (encRecord t p).take k with hs
  have hslen : rs.length < s.length + 1 := by
    have h1 := encRecs_length_ge rs
    have h2 : s.length = (encRecs rs).length + ((encRecord t p).take k).length := by
      rw [hs, List.length_append]
    omega
  rw [hs, recordize_append hwf hne (s.length + 1) _ hslen]
  obtain ⟨f, hf⟩ : ∃ f, s.length + 1 - rs.length = f + 1 := ⟨s.length - rs.length, by omega⟩
  rw [hf, recordize]
  have hne2 : ¬ ((encRecord t p).take k).isEmpty := by
    rw [List.isEmpty_iff]
    intro hcon
    have := congrArg List.length hcon
    rw [List.length_take, encRecord_length] at this
    simp at this
    omega
  rw [if_neg hne2, readRecord_take hev hlen hk1 hk2]
  rfl

theorem load_no_endlib {rs : List Rec} (hwf : ∀ r ∈ rs, WfRec r)
    (hne : ∀ r ∈ rs, r.1 ≠ tENDLIB) :
    loadFromStream (encRecs rs) = .error .unexpectedEndOfStream := by
  apply loadFromStream_recordize_error
  exact recordize_no_endlib hwf hne _ (by have := encRecs_length_ge rs; omega)

theorem load_ignores_after_endlib {rs : List Rec} (hwf : ∀ r ∈ rs, WfRec r)
    (hne : ∀ r ∈ rs, r.1 ≠ tENDLIB) (junk : List Nat) :
    loadFromStream (encRecs rs ++ (encRecord tENDLIB [] ++ junk)) =
      loadFromStream (encRecs rs ++ encRecord tENDLIB []) := by
  have h1 : recordize ((encRecs rs ++ (encRecord tENDLIB [] ++ junk)).length + 1)
      (encRecs rs ++ (encRecord tENDLIB [] ++ junk)) = .ok (rs ++ [(tENDLIB, [])]) := by
    apply recordize_to_endlib hwf hne
    have := encRecs_length_ge rs
    rw [List.length_append]
    omega
  have h2 : recordize ((encRecs rs ++ encRecord tENDLIB []).length + 1)
      (encRecs rs ++ encRecord tENDLIB []) = .ok (rs ++ [(tENDLIB, [])]) := by
    have hform : encRecs rs ++ encRecord tENDLIB [] =
        encRecs rs ++ (encRecord tENDLIB [] ++ []) := by simp
    rw [hform]
    apply recordize_to_endlib hwf hne
    have := encRecs_length_ge rs
    rw [List.length_append]
    omega
  rw [loadFromStream_recordize_ok h1, loadFromStream_recordize_ok h2]

/-! ## Grammar round trip -/

theorem twosDecode2_enc {l : Int} (h : i16ok l = true) :
    twosDecode 2 (twosEncode 2 l) = l := by
  simp only [i16ok, Bool.and_eq_true, decide_eq_true_eq] at h
  exact twosDecode_encode (by omega) (by norm_num; omega) (by norm_num; omega)

theorem twosDecode4_enc {l : Int} (h : i32ok l = true) :
    twosDecode 4 (twosEncode 4 l) = l := by
  simp only [i32ok, Bool.and_eq_true, decide_eq_true_eq] at h
  exact twosDecode_encode (by omega) (by norm_num; omega) (by norm_num; omega)

theorem strans_decide (m : Bool) : (decide (128 ≤ (cond m 128 0 : Nat))) = m := by
  cases m <;> rfl

theorem transform_eta (t : Transform) :
    Transform.mk t.mirrorX t.mag t.angle t.x t.y = t := rfl

theorem debe_be_two {n : Nat} (h : n < 65536) : debe (be 2 n) = n :=
  debe_be_of_lt (by norm_num; omega)

theorem ptsOk_forall {pts : List (Int × Int)} (h : ptsOk pts = true) :
    ∀ q ∈ pts, (i32ok q.1 && i32ok q.2) = true := by
  simp only [ptsOk, Bool.and_eq_true, List.all_eq_true] at h
  intro q hq
  rw [Bool.and_eq_true]
  exact h.2 q hq

theorem encXY_mod8 (pts : List (Int × Int)) : (encXY pts).length % 8 = 0 := by
  rw [encXY_length]
  omega

theorem step_endlib (rest : List Rec) (cells : List Cell) :
    runCells ((tENDLIB, []) :: rest) (.top cells) = .ok cells := by
  simp [runCells, knownTags, tHEADER, tBGNLIB, tLIBNAME, tUNITS, tENDLIB, tBGNSTR,
    tSTRNAME, tENDSTR, tBOUNDARY, tPATH, tSREF, tAREF, tTEXT, tLAYER, tDATATYPE,
    tWIDTH, tXY, tENDEL, tSNAME, tCOLROW, tSTRING, tSTRANS, tMAG, tANGLE, tBOX]

theorem step_bgnstr (pl : List Nat) (rest : List Rec) (cells : List Cell) :
    runCells ((tBGNSTR, pl) :: rest) (.top cells) = runCells rest (.wantName cells) := by
  simp [runCells, knownTags, tHEADER, tBGNLIB, tLIBNAME, tUNITS, tENDLIB, tBGNSTR,
    tSTRNAME, tENDSTR, tBOUNDARY, tPATH, tSREF, tAREF, tTEXT, tLAYER, tDATATYPE,
    tWIDTH, tXY, tENDEL, tSNAME, tCOLROW, tSTRING, tSTRANS, tMAG, tANGLE, tBOX]

theorem step_strname {nm : String} {cells : List Cell} (h : goodStr nm = true)
    (hnotin : nm ∉ cells.map Cell.name)
    (rest : List Rec) :
    runCells ((tSTRNAME, encStr nm) :: rest) (.wantName cells) =
      runCells rest (.inStr cells nm []) := by
  have h2 := decStr_encStr h
  simp [runCells, knownTags, tHEADER, tBGNLIB, tLIBNAME, tUNITS, tENDLIB, tBGNSTR,
    tSTRNAME, tENDSTR, tBOUNDARY, tPATH, tSREF, tAREF, tTEXT, tLAYER, tDATATYPE,
    tWIDTH, tXY, tENDEL, tSNAME, tCOLROW, tSTRING, tSTRANS, tMAG, tANGLE, tBOX,
    h2, hnotin]

theorem step_endstr (rest : List Rec) (cells : List Cell) (cname : String)
    (elems : List Element) :
    runCells ((tENDSTR, []) :: rest) (.inStr cells cname elems) =
      runCells rest (.top (cells ++ [⟨cname, elems⟩])) := by
  simp [runCells, knownTags, tHEADER, tBGNLIB, tLIBNAME, tUNITS, tENDLIB, tBGNSTR,
    tSTRNAME, tENDSTR, tBOUNDARY, tPATH, tSREF, tAREF, tTEXT, tLAYER, tDATATYPE,
    tWIDTH, tXY, tENDEL, tSNAME, tCOLROW, tSTRING, tSTRANS, tMAG, tANGLE, tBOX]

theorem step_open_boundary (rest : List Rec) (cells : List Cell) (cname : String)
    (elems : List Element) :
    runCells ((tBOUNDARY, []) :: rest) (.inStr cells cname elems) =
      runCells rest (.inElem cells cname elems .boundary {}) := by
  simp [runCells, knownTags, tHEADER, tBGNLIB, tLIBNAME, tUNITS, tENDLIB, tBGNSTR,
    tSTRNAME, tENDSTR, tBOUNDARY, tPATH, tSREF, tAREF, tTEXT, tLAYER, tDATATYPE,
    tWIDTH, tXY, tENDEL, tSNAME, tCOLROW, tSTRING, tSTRANS, tMAG, tANGLE, tBOX]

theorem step_open_path (rest : List Rec) (cells : List Cell) (cname : String)
    (elems : List Element) :
    runCells ((tPATH, []) :: rest) (.inStr cells cname elems) =
      runCells rest (.inElem cells cname elems .pathK {}) := by
  simp [runCells, knownTags, tHEADER, tBGNLIB, tLIBNAME, tUNITS, tENDLIB, tBGNSTR,
    tSTRNAME, tENDSTR, tBOUNDARY, tPATH, tSREF, tAREF, tTEXT, tLAYER, tDATATYPE,
    tWIDTH, tXY, tENDEL, tSNAME, tCOLROW, tSTRING, tSTRANS, tMAG, tANGLE, tBOX]

theorem step_open_box (rest : List Rec) (cells : List Cell) (cname : String)
    (elems : List Element) :
    runCells ((tBOX, []) :: rest) (.inStr cells cname elems) =
      runCells rest (.inElem cells cname elems .boxK {}) := by
  simp [runCells, knownTags, tHEADER, tBGNLIB, tLIBNAME, tUNITS, tENDLIB, tBGNSTR,
    tSTRNAME, tENDSTR, tBOUNDARY, tPATH, tSREF, tAREF, tTEXT, tLAYER, tDATATYPE,
    tWIDTH, tXY, tENDEL, tSNAME, tCOLROW, tSTRING, tSTRANS, tMAG, tANGLE, tBOX]

theorem step_open_text (rest : List Rec) (cells : List Cell) (cname : String)
    (elems : List Element) :
    runCells ((tTEXT, []) :: rest) (.inStr cells cname elems) =
      runCells rest (.inElem cells cname elems .textK {}) := by
  simp [runCells, knownTags, tHEADER, tBGNLIB, tLIBNAME, tUNITS, tENDLIB, tBGNSTR,
    tSTRNAME, tENDSTR, tBOUNDARY, tPATH, tSREF, tAREF, tTEXT, tLAYER, tDATATYPE,
    tWIDTH, tXY, tENDEL, tSNAME, tCOLROW, tSTRING, tSTRANS, tMAG, tANGLE, tBOX]

theorem step_open_sref (rest : List Rec) (cells : List Cell) (cname : String)
    (elems : List Element) :
    runCells ((tSREF, []) :: rest) (.inStr cells cname elems) =
      runCells rest (.inElem cells cname elems .srefK {}) := by
  simp [runCells, knownTags, tHEADER, tBGNLIB, tLIBNAME, tUNITS, tENDLIB, tBGNSTR,
    tSTRNAME, tENDSTR, tBOUNDARY, tPATH, tSREF, tAREF, tTEXT, tLAYER, tDATATYPE,
    tWIDTH, tXY, tENDEL, tSNAME, tCOLROW, tSTRING, tSTRANS, tMAG, tANGLE, tBOX]

theorem step_open_aref (rest : List Rec) (cells : List Cell) (cname : String)
    (elems : List Element) :
    runCells ((tAREF, []) :: rest) (.inStr cells cname elems) =
      runCells rest (.inElem cells cname elems .arefK {}) := by
  simp [runCells, knownTags, tHEADER, tBGNLIB, tLIBNAME, tUNITS, tENDLIB, tBGNSTR,
    tSTRNAME, tENDSTR, tBOUNDARY, tPATH, tSREF, tAREF, tTEXT, tLAYER, tDATATYPE,
    tWIDTH, tXY, tENDEL, tSNAME, tCOLROW, tSTRING, tSTRANS, tMAG, tANGLE, tBOX]

theorem step_dtype {d : Int} (h : i16ok d = true)
    (rest : List Rec) (cells : List Cell) (cname : String) (elems : List Element)
    (kind : EKind) (p : PElem) :
    runCells ((tDATATYPE, twosEncode 2 d) :: rest) (.inElem cells cname elems kind p) =
      runCells rest (.inElem cells cname elems kind { p with dtype := some d }) := by
  have h2 := twosDecode2_enc h
  simp [runCells, knownTags, tHEADER, tBGNLIB, tLIBNAME, tUNITS, tENDLIB, tBGNSTR,
    tSTRNAME, tENDSTR, tBOUNDARY, tPATH, tSREF, tAREF, tTEXT, tLAYER, tDATATYPE,
    tWIDTH, tXY, tENDEL, tSNAME, tCOLROW, tSTRING, tSTRANS, tMAG, tANGLE, tBOX,
    twosEncode_length, h2]

theorem step_width {w : Int} (h : i32ok w = true)
    (rest : List Rec) (cells : List Cell) (cname : String) (elems : List Element)
    (kind : EKind) (p : PElem) :
    runCells ((tWIDTH, twosEncode 4 w) :: rest) (.inElem cells cname elems kind p) =
      runCells rest (.inElem cells cname elems kind { p with width := some w }) := by
  have h2 := twosDecode4_enc h
  simp [runCells, knownTags, tHEADER, tBGNLIB, tLIBNAME, tUNITS, tENDLIB, tBGNSTR,
    tSTRNAME, tENDSTR, tBOUNDARY, tPATH, tSREF, tAREF, tTEXT, tLAYER, tDATATYPE,
    tWIDTH, tXY, tENDEL, tSNAME, tCOLROW, tSTRING, tSTRANS, tMAG, tANGLE, tBOX,
    twosEncode_length, h2]

theorem step_xy {pts : List (Int × Int)}
    (h : ∀ q ∈ pts, (i32ok q.1 && i32ok q.2) = true)
    (rest : List Rec) (cells : List Cell) (cname : String) (elems : List Element)
    (kind : EKind) (p : PElem) :
    runCells ((tXY, encXY pts) :: rest) (.inElem cells cname elems kind p) =
      runCells rest (.inElem cells cname elems kind { p with xy := some pts }) := by
  have h2 := decXY_encXY h
  simp [runCells, knownTags, tHEADER, tBGNLIB, tLIBNAME, tUNITS, tENDLIB, tBGNSTR,
    tSTRNAME, tENDSTR, tBOUNDARY, tPATH, tSREF, tAREF, tTEXT, tLAYER, tDATATYPE,
    tWIDTH, tXY, tENDEL, tSNAME, tCOLROW, tSTRING, tSTRANS, tMAG, tANGLE, tBOX,
    encXY_mod8, h2]

theorem step_sname {nm : String} (h : goodStr nm = true)
    (rest : List Rec) (cells : List Cell) (cname : String) (elems : List Element)
    (kind : EKind) (p : PElem) :
    runCells ((tSNAME, encStr nm) :: rest) (.inElem cells cname elems kind p) =
      runCells rest (.inElem cells cname elems kind { p with sname := some nm }) := by
  have h2 := decStr_encStr h
  simp [runCells, knownTags, tHEADER, tBGNLIB, tLIBNAME, tUNITS, tENDLIB, tBGNSTR,
    tSTRNAME, tENDSTR, tBOUNDARY, tPATH, tSREF, tAREF, tTEXT, tLAYER, tDATATYPE,
    tWIDTH, tXY, tENDEL, tSNAME, tCOLROW, tSTRING, tSTRANS, tMAG, tANGLE, tBOX, h2]

theorem step_colrow {cols rows : Nat} (hc : cols < 65536) (hr : rows < 65536)
    (rest : List Rec) (cells : List Cell) (cname : String) (elems : List Element)
    (kind : EKind) (p : PElem) :
    runCells ((tCOLROW, be 2 cols ++ be 2 rows) :: rest) (.inElem cells cname elems kind p) =
      runCells rest (.inElem cells cname elems kind { p with colrow := some (cols, rows) }) := by
  have htk : (be 2 cols ++ be 2 rows).take 2 = be 2 cols := List.take_left' (be_length 2 cols)
  have hdr : (be 2 cols ++ be 2 rows).drop 2 = be 2 rows := List.drop_left' (be_length 2 cols)
  have hbc : debe (be 2 cols) = cols := debe_be_two hc
  have hbr : debe (be 2 rows) = rows := debe_be_two hr
  have hclen : (be 2 cols ++ be 2 rows).length = 4 := by
    rw [List.length_append, be_length, be_length]
  simp [runCells, knownTags, tHEADER, tBGNLIB, tLIBNAME, tUNITS, tENDLIB, tBGNSTR,
    tSTRNAME, tENDSTR, tBOUNDARY, tPATH, tSREF, tAREF, tTEXT, tLAYER, tDATATYPE,
    tWIDTH, tXY, tENDEL, tSNAME, tCOLROW, tSTRING, tSTRANS, tMAG, tANGLE, tBOX,
    htk, hdr, hbc, hbr, hclen]

theorem step_strans (m : Bool)
    (rest : List Rec) (cells : List Cell) (cname : String) (elems : List Element)
    (kind : EKind) (p : PElem) :
    runCells ((tSTRANS, [cond m 128 0, 0]) :: rest) (.inElem cells cname elems kind p) =
      runCells rest (.inElem cells cname elems kind { p with mirrored := some m }) := by
  have h2 := strans_decide m
  simp [runCells, knownTags, tHEADER, tBGNLIB, tLIBNAME, tUNITS, tENDLIB, tBGNSTR,
    tSTRNAME, tENDSTR, tBOUNDARY, tPATH, tSREF, tAREF, tTEXT, tLAYER, tDATATYPE,
    tWIDTH, tXY, tENDEL, tSNAME, tCOLROW, tSTRING, tSTRANS, tMAG, tANGLE, tBOX, h2]

theorem step_mag {r : GdsReal} (h : r.wf)
    (rest : List Rec) (cells : List Cell) (cname : String) (elems : List Element)
    (kind : EKind) (p : PElem) :
    runCells ((tMAG, encReal r) :: rest) (.inElem cells cname elems kind p) =
      runCells rest (.inElem cells cname elems kind { p with mag := some r }) := by
  have h2 := decReal_encReal h
  simp [runCells, knownTags, tHEADER, tBGNLIB, tLIBNAME, tUNITS, tENDLIB, tBGNSTR,
    tSTRNAME, tENDSTR, tBOUNDARY, tPATH, tSREF, tAREF, tTEXT, tLAYER, tDATATYPE,
    tWIDTH, tXY, tENDEL, tSNAME, tCOLROW, tSTRING, tSTRANS, tMAG, tANGLE, tBOX, h2]

theorem step_angle {r : GdsReal} (h : r.wf)
    (rest : List Rec) (cells : List Cell) (cname : String) (elems : List Element)
    (kind : EKind) (p : PElem) :
    runCells ((tANGLE, encReal r) :: rest) (.inElem cells cname elems kind p) =
      runCells rest (.inElem cells cname elems kind { p with angle := some r }) := by
  have h2 := decReal_encReal h
  simp [runCells, knownTags, tHEADER, tBGNLIB, tLIBNAME, tUNITS, tENDLIB, tBGNSTR,
    tSTRNAME, tENDSTR, tBOUNDARY, tPATH, tSREF, tAREF, tTEXT, tLAYER, tDATATYPE,
    tWIDTH, tXY, tENDEL, tSNAME, tCOLROW, tSTRING, tSTRANS, tMAG, tANGLE, tBOX, h2]

theorem step_string {s : String} (h : goodStr s = true)
    (rest : List Rec) (cells : List Cell) (cname : String) (elems : List Element)
    (kind : EKind) (p : PElem) :
    runCells ((tSTRING, encStr s) :: rest) (.inElem cells cname elems kind p) =
      runCells rest (.inElem cells cname elems kind { p with strv := some s }) := by
  have h2 := decStr_encStr h
  simp [runCells, knownTags, tHEADER, tBGNLIB, tLIBNAME, tUNITS, tENDLIB, tBGNSTR,
    tSTRNAME, tENDSTR, tBOUNDARY, tPATH, tSREF, tAREF, tTEXT, tLAYER, tDATATYPE,
    tWIDTH, tXY, tENDEL, tSNAME, tCOLROW, tSTRING, tSTRANS, tMAG, tANGLE, tBOX, h2]

theorem step_endel {kind : EKind} {p : PElem} {e : Element}
    (hfin : finalize kind p = some e)
    (rest : List Rec) (cells : List Cell) (cname : String) (elems : List Element) :
    runCells ((tENDEL, []) :: rest) (.inElem cells cname elems kind p) =
      runCells rest (.inStr cells cname (elems ++ [e])) := by
  simp [runCells, knownTags, tHEADER, tBGNLIB, tLIBNAME, tUNITS, tENDLIB, tBGNSTR,
    tSTRNAME, tENDSTR, tBOUNDARY, tPATH, tSREF, tAREF, tTEXT, tLAYER, tDATATYPE,
    tWIDTH, tXY, tENDEL, tSNAME, tCOLROW, tSTRING, tSTRANS, tMAG, tANGLE, tBOX, hfin]

theorem step_layer {l : Int} (h : i16ok l = true)
    (rest : List Rec) (cells : List Cell) (cname : String) (elems : List Element)
    (kind : EKind) (p : PElem) :
    runCells ((tLAYER, twosEncode 2 l) :: rest) (.inElem cells cname elems kind p) =
      runCells rest (.inElem cells cname elems kind { p with layer := some l }) := by
  have h2 := twosDecode2_enc h
  simp [runCells, knownTags, tHEADER, tBGNLIB, tLIBNAME, tUNITS, tENDLIB, tBGNSTR,
    tSTRNAME, tENDSTR, tBOUNDARY, tPATH, tSREF, tAREF, tTEXT, tLAYER, tDATATYPE,
    tWIDTH, tXY, tENDEL, tSNAME, tCOLROW, tSTRING, tSTRANS, tMAG, tANGLE, tBOX,
    twosEncode_length, h2]

theorem runCells_elem {e : Element} (hok : elemOk e = true)
    (rest : List Rec) (cells : List Cell) (cname : String) (elems : List Element) :
    runCells (elemRecs e ++ rest) (.inStr cells cname elems) =
      runCells rest (.inStr cells cname (elems ++ [e])) := by
  cases e with
  | polygon l d pts =>
    simp only [elemOk, Bool.and_eq_true] at hok
    obtain ⟨⟨hl, hd⟩, hpts⟩ := hok
    have hfin : finalize .boundary
        (PElem.mk (some l) (some d) none (some pts) none none none none none none) =
        some (.polygon l d pts) := rfl
    simp only [elemRecs, List.cons_append, List.nil_append]
    rw [step_open_boundary, step_layer hl, step_dtype hd, step_xy (ptsOk_forall hpts),
      step_endel hfin]
  | pathEl l d w pts =>
    simp only [elemOk, Bool.and_eq_true] at hok
    obtain ⟨⟨⟨hl, hd⟩, hw⟩, hpts⟩ := hok
    have hfin : finalize .pathK
        (PElem.mk (some l) (some d) (some w) (some pts) none none none none none none) =
        some (.pathEl l d w pts) := rfl
    simp only [elemRecs, List.cons_append, List.nil_append]
    rw [step_open_path, step_layer hl, step_dtype hd, step_width hw,
      step_xy (ptsOk_forall hpts), step_endel hfin]
  | box l d pts =>
    simp only [elemOk, Bool.and_eq_true] at hok
    obtain ⟨⟨hl, hd⟩, hpts⟩ := hok
    have hfin : finalize .boxK
        (PElem.mk (some l) (some d) none (some pts) none none none none none none) =
        some (.box l d pts) := rfl
    simp only [elemRecs, List.cons_append, List.nil_append]
    rw [step_open_box, step_layer hl, step_dtype hd, step_xy (ptsOk_forall hpts),
      step_endel hfin]
  | text l d pos s =>
    simp only [elemOk, Bool.and_eq_true] at hok
    obtain ⟨⟨⟨⟨hl, hd⟩, hx⟩, hy⟩, hs⟩ := hok
    have hxy : ∀ q ∈ [pos], (i32ok q.1 && i32ok q.2) = true := by
      intro q hq
      simp only [List.mem_singleton] at hq
      subst hq
      rw [Bool.and_eq_true]
      exact ⟨hx, hy⟩
    have hfin : finalize .textK
        (PElem.mk (some l) (some d) none (some [pos]) none none none none none (some s)) =
        some (.text l d pos s) := rfl
    simp only [elemRecs, List.cons_append, List.nil_append]
    rw [step_open_text, step_layer hl, step_dtype hd, step_xy hxy, step_string hs,
      step_endel hfin]
  | sref tgt t =>
    simp only [elemOk, transformOk, Bool.and_eq_true] at hok
    obtain ⟨htgt, ⟨⟨hmag, hang⟩, hx⟩, hy⟩ := hok
    have hxy : ∀ q ∈ [(t.x, t.y)], (i32ok q.1 && i32ok q.2) = true := by
      intro q hq
      simp only [List.mem_singleton] at hq
      subst hq
      rw [Bool.and_eq_true]
      exact ⟨hx, hy⟩
    have hfin : finalize .srefK
        (PElem.mk none none none (some [(t.x, t.y)]) (some tgt) none (some t.mirrorX)
          (some t.mag) (some t.angle) none) = some (.sref tgt t) := rfl
    simp only [elemRecs, transRecs, List.cons_append, List.nil_append]
    rw [step_open_sref, step_sname htgt, step_strans t.mirrorX,
      step_mag (by simpa [realOk, decide_eq_true_eq] using hmag),
      step_angle (by simpa [realOk, decide_eq_true_eq] using hang),
      step_xy hxy, step_endel hfin]
  | aref tgt t cols rows cv rv =>
    simp only [elemOk, transformOk, Bool.and_eq_true, decide_eq_true_eq] at hok
    obtain ⟨⟨⟨⟨⟨⟨⟨⟨⟨htgt, ⟨⟨hmag, hang⟩, hx⟩, hy⟩, hc1⟩, hc2⟩, hr1⟩, hr2⟩,
      hcx⟩, hcy⟩, hrx⟩, hry⟩ := hok
    have hcne : ((cols : Int)) ≠ 0 := by omega
    have hrne : ((rows : Int)) ≠ 0 := by omega
    have hxy : ∀ q ∈ [(t.x, t.y), (t.x + (cols : Int) * cv.1, t.y + (cols : Int) * cv.2),
        (t.x + (rows : Int) * rv.1, t.y + (rows : Int) * rv.2)],
        (i32ok q.1 && i32ok q.2) = true := by
      intro q hq
      simp only [List.mem_cons, List.not_mem_nil, or_false] at hq
      rcases hq with rfl | rfl | rfl <;> rw [Bool.and_eq_true] <;>
        exact ⟨by assumption, by assumption⟩
    have e1 : t.x + (cols : Int) * cv.1 - t.x = (cols : Int) * cv.1 := by ring
    have e2 : t.y + (cols : Int) * cv.2 - t.y = (cols : Int) * cv.2 := by ring
    have e3 : t.x + (rows : Int) * rv.1 - t.x = (rows : Int) * rv.1 := by ring
    have e4 : t.y + (rows : Int) * rv.2 - t.y = (rows : Int) * rv.2 := by ring
    have hdc1 : ((cols : Int) * cv.1) / (cols : Int) = cv.1 :=
      Int.mul_ediv_cancel_left _ hcne
    have hdc2 : ((cols : Int) * cv.2) / (cols : Int) = cv.2 :=
      Int.mul_ediv_cancel_left _ hcne
    have hdr1 : ((rows : Int) * rv.1) / (rows : Int) = rv.1 :=
      Int.mul_ediv_cancel_left _ hrne
    have hdr2 : ((rows : Int) * rv.2) / (rows : Int) = rv.2 :=
      Int.mul_ediv_cancel_left _ hrne
    have hfin : finalize .arefK
        (PElem.mk none none none
          (some [(t.x, t.y), (t.x + (cols : Int) * cv.1, t.y + (cols : Int) * cv.2),
                 (t.x + (rows : Int) * rv.1, t.y + (rows : Int) * rv.2)])
          (some tgt) (some (cols, rows)) (some t.mirrorX) (some t.mag) (some t.angle)
          none) = some (.aref tgt t cols rows cv rv) := by
      have h0c : ¬ (cols = 0) := by omega
      have h0r : ¬ (rows = 0) := by omega
      simp [finalize, pelemTransform, h0c, h0r, e1, e2, e3, e4, hdc1, hdc2, hdr1, hdr2,
        transform_eta]
    simp only [elemRecs, transRecs, List.cons_append, List.nil_append]
    rw [step_open_aref, step_sname htgt, step_strans t.mirrorX,
      step_mag (by simpa [realOk, decide_eq_true_eq] using hmag),
      step_angle (by simpa [realOk, decide_eq_true_eq] using hang),
      step_colrow hc2 hr2, step_xy hxy, step_endel hfin]



/-! ## Cell- and layout-level round trip -/
theorem cell_eta (c : Cell) : Cell.mk c.name c.elements = c := rfl

theorem runCells_elems {es : List Element} (hok : es.all elemOk = true)
    (rest : List Rec) (cells : List Cell) (cname : String) (elems : List Element) :
    runCells (es.flatMap elemRecs ++ rest) (.inStr cells cname elems) =
      runCells rest (.inStr cells cname (elems ++ es)) := by
  induction es generalizing elems with
  | nil => simp
  | cons e es ih =>
    simp only [List.all_cons, Bool.and_eq_true] at hok
    rw [List.flatMap_cons, List.append_assoc, runCells_elem hok.1,
      ih hok.2, List.append_assoc, List.singleton_append]

theorem runCells_cell {c : Cell} (hok : cellOk c = true)
    {cells : List Cell} (hnm : c.name ∉ cells.map Cell.name)
    (rest : List Rec) :
    runCells (cellRecs c ++ rest) (.top cells) = runCells rest (.top (cells ++ [c])) := by
  simp only [cellOk, Bool.and_eq_true] at hok
  simp only [cellRecs, List.cons_append, List.append_assoc, List.cons_append]
  rw [step_bgnstr, step_strname hok.1 hnm, runCells_elems hok.2, step_endstr]
  simp only [List.nil_append, cell_eta]

theorem runCells_cells {cs : List Cell} (hok : cs.all cellOk = true)
    {acc : List Cell} (hnodup : ((acc ++ cs).map Cell.name).Nodup)
    (rest : List Rec) :
    runCells (cs.flatMap cellRecs ++ rest) (.top acc) =
      runCells rest (.top (acc ++ cs)) := by
  induction cs generalizing acc with
  | nil => simp
  | cons c cs ih =>
    simp only [List.all_cons, Bool.and_eq_true] at hok
    have hnm : c.name ∉ acc.map Cell.name := by
      intro hmem
      rw [List.map_append] at hnodup
      have hdisj := List.disjoint_of_nodup_append hnodup
      exact hdisj hmem (by simp)
    have hnodup' : (((acc ++ [c]) ++ cs).map Cell.name).Nodup := by
      have : (acc ++ [c]) ++ cs = acc ++ c :: cs := by simp
      rw [this]
      exact hnodup
    rw [List.flatMap_cons, List.append_assoc, runCells_cell hok.1 hnm,
      ih hok.2 hnodup', List.append_assoc, List.singleton_append]
theorem encStr_even (s : String) : (encStr s).length % 2 = 0 := by
  unfold encStr
  by_cases h : (s.data.map Char.toNat).length % 2 = 0
  · rw [if_pos h]
    exact h
  · rw [if_neg h]
    rw [List.length_append]
    simp only [List.length_singleton]
    omega

theorem encStr_le (s : String) : (encStr s).length ≤ s.data.length + 1 := by
  unfold encStr
  by_cases h : (s.data.map Char.toNat).length % 2 = 0
  · rw [if_pos h]
    simp
  · rw [if_neg h]
    simp

theorem encReal_length (r : GdsReal) : (encReal r).length = 8 := by
  simp [encReal, be_length]

theorem goodStr_wfPayload {s : String} (h : goodStr s = true) :
    (encStr s).length % 2 = 0 ∧ (encStr s).length + 4 < 65536 := by
  refine ⟨encStr_even s, ?_⟩
  have h1 := encStr_le s
  simp only [goodStr, Bool.and_eq_true, decide_eq_true_eq] at h
  omega

theorem wf_elemRecs {e : Element} (hok : elemOk e = true) :
    ∀ r ∈ elemRecs e, WfRec r ∧ r.1 ≠ tENDLIB := by
  cases e with
  | polygon l d pts =>
    simp only [elemOk, Bool.and_eq_true] at hok
    have hlen : pts.length ≤ 8000 := by
      have := hok.2
      simp only [ptsOk, Bool.and_eq_true, decide_eq_true_eq, List.all_eq_true] at this
      exact this.1
    intro r hr
    simp only [elemRecs, List.mem_cons, List.not_mem_nil, or_false] at hr
    rcases hr with rfl | rfl | rfl | rfl | rfl <;>
      refine ⟨⟨?_, ?_, ?_⟩, ?_⟩ <;>
      simp [twosEncode_length, encXY_length, tBOUNDARY, tLAYER, tDATATYPE, tXY,
        tENDEL, tENDLIB] <;> omega
  | pathEl l d w pts =>
    simp only [elemOk, Bool.and_eq_true] at hok
    have hlen : pts.length ≤ 8000 := by
      have := hok.2
      simp only [ptsOk, Bool.and_eq_true, decide_eq_true_eq, List.all_eq_true] at this
      exact this.1
    intro r hr
    simp only [elemRecs, List.mem_cons, List.not_mem_nil, or_false] at hr
    rcases hr with rfl | rfl | rfl | rfl | rfl | rfl <;>
      refine ⟨⟨?_, ?_, ?_⟩, ?_⟩ <;>
      simp [twosEncode_length, encXY_length, tPATH, tLAYER, tDATATYPE, tWIDTH, tXY,
        tENDEL, tENDLIB] <;> omega
  | box l d pts =>
    simp only [elemOk, Bool.and_eq_true] at hok
    have hlen : pts.length ≤ 8000 := by
      have := hok.2
      simp only [ptsOk, Bool.and_eq_true, decide_eq_true_eq, List.all_eq_true] at this
      exact this.1
    intro r hr
    simp only [elemRecs, List.mem_cons, List.not_mem_nil, or_false] at hr
    rcases hr with rfl | rfl | rfl | rfl | rfl <;>
      refine ⟨⟨?_, ?_, ?_⟩, ?_⟩ <;>
      simp [twosEncode_length, encXY_length, tBOX, tLAYER, tDATATYPE, tXY,
        tENDEL, tENDLIB] <;> omega
  | text l d pos s =>
    simp only [elemOk, Bool.and_eq_true] at hok
    have hs := goodStr_wfPayload hok.2
    intro r hr
    simp only [elemRecs, List.mem_cons, List.not_mem_nil, or_false] at hr
    rcases hr with rfl | rfl | rfl | rfl | rfl | rfl <;>
      refine ⟨⟨?_, ?_, ?_⟩, ?_⟩ <;>
      simp [twosEncode_length, encXY_length, tTEXT, tLAYER, tDATATYPE, tXY, tSTRING,
        tENDEL, tENDLIB] <;> omega
  | sref tgt t =>
    simp only [elemOk, Bool.and_eq_true] at hok
    have hs := goodStr_wfPayload hok.1
    intro r hr
    simp only [elemRecs, transRecs, List.cons_append, List.nil_append,
      List.mem_cons, List.not_mem_nil, or_false] at hr
    rcases hr with rfl | rfl | rfl | rfl | rfl | rfl | rfl <;>
      refine ⟨⟨?_, ?_, ?_⟩, ?_⟩ <;>
      simp [twosEncode_length, encXY_length, encReal_length, tSREF, tSNAME, tSTRANS,
        tMAG, tANGLE, tXY, tENDEL, tENDLIB] <;> omega
  | aref tgt t cols rows cv rv =>
    simp only [elemOk, Bool.and_eq_true] at hok
    have hs := goodStr_wfPayload hok.1.1.1.1.1.1.1.1.1
    intro r hr
    simp only [elemRecs, transRecs, List.cons_append, List.nil_append,
      List.mem_cons, List.not_mem_nil, or_false] at hr
    rcases hr with rfl | rfl | rfl | rfl | rfl | rfl | rfl | rfl <;>
      refine ⟨⟨?_, ?_, ?_⟩, ?_⟩ <;>
      simp [twosEncode_length, encXY_length, encReal_length, be_length, tAREF, tSNAME,
        tSTRANS, tMAG, tANGLE, tCOLROW, tXY, tENDEL, tENDLIB] <;> omega

theorem wf_cellRecs {c : Cell} (hok : cellOk c = true) :
    ∀ r ∈ cellRecs c, WfRec r ∧ r.1 ≠ tENDLIB := by
  simp only [cellOk, Bool.and_eq_true] at hok
  have hs := goodStr_wfPayload hok.1
  intro r hr
  have hsplit : r = (tBGNSTR, []) ∨ r = (tSTRNAME, encStr c.name) ∨
      (∃ e ∈ c.elements, r ∈ elemRecs e) ∨ r = (tENDSTR, []) := by
    simpa [cellRecs, List.mem_cons, List.mem_append, List.mem_flatMap, or_assoc] using hr
  rcases hsplit with rfl | rfl | ⟨e, he, hre⟩ | rfl
  · exact ⟨⟨by simp, by simp, by norm_num [tBGNSTR]⟩, by norm_num [tBGNSTR, tENDLIB]⟩
  · exact ⟨⟨hs.1, hs.2, by norm_num [tSTRNAME]⟩, by norm_num [tSTRNAME, tENDLIB]⟩
  · have := List.all_eq_true.mp hok.2 e he
    exact wf_elemRecs this r hre
  · exact ⟨⟨by simp, by simp, by norm_num [tENDSTR]⟩, by norm_num [tENDSTR, tENDLIB]⟩

theorem wf_layoutRecs {m : Layout} (hok : encodable m = true) :
    ∀ r ∈ layoutRecs m, WfRec r ∧ r.1 ≠ tENDLIB := by
  simp only [encodable, Bool.and_eq_true] at hok
  have hs := goodStr_wfPayload hok.1.1.1.1.1
  intro r hr
  have hsplit : r = (tHEADER, twosEncode 2 600) ∨ r = (tBGNLIB, []) ∨
      r = (tLIBNAME, encStr m.libName) ∨
      r = (tUNITS, encReal m.userUnit ++ encReal m.dbUnit) ∨
      (∃ c ∈ m.cells, r ∈ cellRecs c) := by
    simpa [layoutRecs, List.mem_cons, List.mem_append, List.mem_flatMap, or_assoc] using hr
  rcases hsplit with rfl | rfl | rfl | rfl | ⟨c, hc, hrc⟩
  · exact ⟨⟨by simp [twosEncode_length], by simp [twosEncode_length],
      by norm_num [tHEADER]⟩, by norm_num [tHEADER, tENDLIB]⟩
  · exact ⟨⟨by simp, by simp, by norm_num [tBGNLIB]⟩, by norm_num [tBGNLIB, tENDLIB]⟩
  · exact ⟨⟨hs.1, hs.2, by norm_num [tLIBNAME]⟩, by norm_num [tLIBNAME, tENDLIB]⟩
  · exact ⟨⟨by simp [encReal_length], by simp [encReal_length], by norm_num [tUNITS]⟩,
      by norm_num [tUNITS, tENDLIB]⟩
  · have := List.all_eq_true.mp hok.1.1.2 c hc
    exact wf_cellRecs this r hrc
theorem skipUnknown_cons {t : Nat} (h : t ∈ knownTags) (pl : List Nat) (rest : List Rec) :
    skipUnknown ((t, pl) :: rest) = (t, pl) :: rest := by
  unfold skipUnknown
  rw [List.dropWhile_cons, if_neg (by simp [h])]

theorem expectTag_hit {t : Nat} (h : t ∈ knownTags) (pl : List Nat) (rest : List Rec) :
    expectTag t ((t, pl) :: rest) = .ok (pl, rest) := by
  unfold expectTag
  rw [skipUnknown_cons h]
  simp

theorem decUnits_enc {u d : GdsReal} (hu : u.wf) (hd : d.wf) :
    decUnits (encReal u ++ encReal d) = .ok (u, d) := by
  unfold decUnits
  rw [if_pos (by simp [encReal_length])]
  rw [List.take_left' (encReal_length u), List.drop_left' (encReal_length u)]
  rw [decReal_encReal hu, decReal_encReal hd]

theorem layout_eta (m : Layout) :
    Layout.mk m.libName m.userUnit m.dbUnit m.cells = m := rfl

theorem loadRecords_enc {m : Layout} (hok : encodable m = true) :
    loadRecords (layoutRecs m ++ [(tENDLIB, [])]) = .ok m := by
  have hok' := hok
  simp only [encodable, Bool.and_eq_true] at hok'
  obtain ⟨⟨⟨⟨⟨hlib, huu⟩, hdu⟩, hcells⟩, hnodup⟩, _⟩ := hok'
  have huu' : m.userUnit.wf := by simpa [realOk, decide_eq_true_eq] using huu
  have hdu' : m.dbUnit.wf := by simpa [realOk, decide_eq_true_eq] using hdu
  unfold loadRecords
  simp only [layoutRecs, List.cons_append, List.nil_append]
  rw [expectTag_hit (by simp [knownTags])]
  simp only [bind, Except.bind]
  rw [expectTag_hit (by simp [knownTags])]
  simp only [bind, Except.bind]
  rw [expectTag_hit (by simp [knownTags])]
  simp only [bind, Except.bind]
  rw [expectTag_hit (by simp [knownTags])]
  simp only [bind, Except.bind]
  rw [decUnits_enc huu' hdu']
  simp only [bind, Except.bind]
  have hrun : runCells (m.cells.flatMap cellRecs ++ [(tENDLIB, [])]) (.top []) =
      .ok m.cells := by
    rw [runCells_cells hcells (by simpa using (decide_eq_true_eq.mp hnodup)) [(tENDLIB, [])]]
    rw [List.nil_append]
    exact step_endlib [] m.cells
  rw [hrun]
  simp only [bind, Except.bind]
  rw [decStr_encStr hlib, layout_eta]
  rfl

theorem checkRefs_ok_of_encodable {m : Layout} (hok : encodable m = true) :
    checkRefs m = .ok () := by
  simp only [encodable, Bool.and_eq_true] at hok
  have h := hok.2
  revert h
  cases checkRefs m with
  | ok u => cases u; simp
  | error e => simp

theorem load_encode_ok {m : Layout} (hok : encodable m = true) :
    loadFromStream (bytesOf m) = .ok m := by
  have hwf : ∀ r ∈ layoutRecs m, WfRec r := fun r hr => (wf_layoutRecs hok r hr).1
  have hne : ∀ r ∈ layoutRecs m, r.1 ≠ tENDLIB := fun r hr => (wf_layoutRecs hok r hr).2
  have hrec : recordize ((bytesOf m).length + 1) (bytesOf m) =
      .ok (layoutRecs m ++ [(tENDLIB, [])]) := by
    have hform : bytesOf m = encRecs (layoutRecs m) ++ (encRecord tENDLIB [] ++ []) := by
      simp [bytesOf]
    rw [hform]
    apply recordize_to_endlib hwf hne
    have h1 := encRecs_length_ge (layoutRecs m)
    simp only [List.length_append]
    omega
  rw [loadFromStream_recordize_ok hrec]
  rw [loadRecords_enc hok]
  simp only [bind, Except.bind]
  rw [checkRefs_ok_of_encodable hok]
  rfl

/-! ## Acyclicity validation -/

theorem edge_closure {g : String → List String} :
    ∀ {l : List String}, TopoList g l → ∀ v ∈ l, ∀ b ∈ g v, b ∈ l := by
  intro l
  induction l with
  | nil => intro _ v hv; exact absurd hv (List.not_mem_nil v)
  | cons x xs ih =>
    intro htopo v hv b hb
    obtain ⟨hx, hgx, hxs⟩ := htopo
    rcases List.mem_cons.mp hv with rfl | hv'
    · exact List.mem_cons_of_mem _ (hgx b hb)
    · exact List.mem_cons_of_mem _ (ih hxs v hv' b hb)

theorem reach_closure {g : String → List String} {l : List String}
    (htopo : TopoList g l) {v m : String} (hv : v ∈ l)
    (hpath : Relation.ReflTransGen (fun a b => b ∈ g a) v m) : m ∈ l := by
  induction hpath with
  | refl => exact hv
  | tail _ hstep ih => exact edge_closure htopo _ ih _ hstep

theorem topo_no_cycle {g : String → List String} :
    ∀ {l : List String}, TopoList g l → ∀ v ∈ l,
      ¬ Relation.TransGen (fun a b => b ∈ g a) v v := by
  intro l
  induction l with
  | nil => intro _ v hv; exact absurd hv (List.not_mem_nil v)
  | cons x xs ih =>
    intro htopo v hv hcyc
    obtain ⟨hx, hgx, hxs⟩ := htopo
    rcases List.mem_cons.mp hv with rfl | hv'
    · obtain ⟨c, hstep, hpath⟩ := Relation.TransGen.head'_iff.mp hcyc
      have hc : c ∈ xs := hgx c hstep
      exact hx (reach_closure hxs hc hpath)
    · exact ih hxs v hv' hcyc

theorem foldVisit_sound (g : String → List String) (fuel : Nat)
    (hvisit : ∀ (n : String) (visiting visited v' : List String), TopoList g visited →
      visit g fuel n visiting visited = .ok v' →
      TopoList g v' ∧ (∀ x ∈ visited, x ∈ v') ∧ n ∈ v' ∧
      (∀ x ∈ v', x ∈ visited ∨ x ∉ visiting)) :
    ∀ (l visiting visited v' : List String), TopoList g visited →
      List.foldlM (fun acc c => visit g fuel c visiting acc) visited l = .ok v' →
      TopoList g v' ∧ (∀ x ∈ visited, x ∈ v') ∧ (∀ s ∈ l, s ∈ v') ∧
      (∀ x ∈ v', x ∈ visited ∨ x ∉ visiting) := by
  intro l
  induction l with
  | nil =>
    intro visiting visited v' ht h
    simp only [List.foldlM_nil, pure, Except.pure, Except.ok.injEq] at h
    subst h
    exact ⟨ht, fun x hx => hx, by simp, fun x hx => Or.inl hx⟩
  | cons c cs ih =>
    intro visiting visited v' ht h
    rw [List.foldlM_cons] at h
    cases hv : visit g fuel c visiting visited with
    | error e =>
      rw [hv] at h
      simp [bind, Except.bind] at h
    | ok acc =>
      rw [hv] at h
      simp only [bind, Except.bind] at h
      obtain ⟨ht1, hsub1, hc1, h41⟩ := hvisit c visiting visited acc ht hv
      obtain ⟨ht2, hsub2, hall2, h42⟩ := ih visiting acc v' ht1 h
      refine ⟨ht2, fun x hx => hsub2 _ (hsub1 x hx), ?_, ?_⟩
      · intro s hs
        rcases List.mem_cons.mp hs with rfl | hs'
        · exact hsub2 _ hc1
        · exact hall2 s hs'
      · intro x hx
        rcases h42 x hx with hacc | hnv
        · exact h41 x hacc
        · exact Or.inr hnv

theorem visit_sound (g : String → List String) :
    ∀ fuel (n : String) (visiting visited v' : List String), TopoList g visited →
      visit g fuel n visiting visited = .ok v' →
      TopoList g v' ∧ (∀ x ∈ visited, x ∈ v') ∧ n ∈ v' ∧
      (∀ x ∈ v', x ∈ visited ∨ x ∉ visiting) := by
  intro fuel
  induction fuel with
  | zero =>
    intro n visiting visited v' ht h
    simp [visit] at h
  | succ fuel ihf =>
    intro n visiting visited v' ht h
    rw [visit] at h
    by_cases h1 : n ∈ visiting
    · rw [if_pos h1] at h
      simp at h
    · rw [if_neg h1] at h
      by_cases h2 : n ∈ visited
      · rw [if_pos h2] at h
        simp only [Except.ok.injEq] at h
        subst h
        exact ⟨ht, fun x hx => hx, h2, fun x hx => Or.inl hx⟩
      · rw [if_neg h2] at h
        cases hf : List.foldlM (fun acc c => visit g fuel c (n :: visiting) acc) visited (g n) with
        | error e =>
          rw [hf] at h
          simp at h
        | ok w =>
          rw [hf] at h
          simp only [Except.ok.injEq] at h
          subst h
          obtain ⟨htw, hsubw, hgn, h4w⟩ :=
            foldVisit_sound g fuel ihf (g n) (n :: visiting) visited w ht hf
          have hnw : n ∉ w := by
            intro hmem
            rcases h4w n hmem with hmem2 | hmem2
            · exact h2 hmem2
            · exact hmem2 (List.mem_cons_self _ _)
          refine ⟨⟨hnw, hgn, htw⟩, fun x hx => List.mem_cons_of_mem _ (hsubw x hx),
            List.mem_cons_self _ _, ?_⟩
          intro x hx
          rcases List.mem_cons.mp hx with rfl | hxw
          · exact Or.inr h1
          · rcases h4w x hxw with hm | hm
            · exact Or.inl hm
            · exact Or.inr fun hc => hm (List.mem_cons_of_mem _ hc)

theorem foldVisit_err (g : String → List String) (fuel : Nat)
    (hvisit : ∀ (n : String) (visiting visited : List String) (e : LoadError),
      visit g fuel n visiting visited = .error e → e = .cyclicReference) :
    ∀ (l visiting visited : List String) (e : LoadError),
      List.foldlM (fun acc c => visit g fuel c visiting acc) visited l = .error e →
      e = .cyclicReference := by
  intro l
  induction l with
  | nil =>
    intro visiting visited e h
    simp [List.foldlM_nil, pure, Except.pure] at h
  | cons c cs ih =>
    intro visiting visited e h
    rw [List.foldlM_cons] at h
    cases hv : visit g fuel c visiting visited with
    | error e' =>
      rw [hv] at h
      simp only [bind, Except.bind, Except.error.injEq] at h
      subst h
      exact hvisit c visiting visited e' hv
    | ok acc =>
      rw [hv] at h
      simp only [bind, Except.bind] at h
      exact ih visiting acc e h

theorem visit_err (g : String → List String) :
    ∀ fuel (n : String) (visiting visited : List String) (e : LoadError),
      visit g fuel n visiting visited = .error e → e = .cyclicReference := by
  intro fuel
  induction fuel with
  | zero =>
    intro n visiting visited e h
    simp only [visit, Except.error.injEq] at h
    exact h.symm
  | succ fuel ihf =>
    intro n visiting visited e h
    rw [visit] at h
    by_cases h1 : n ∈ visiting
    · rw [if_pos h1] at h
      simp only [Except.error.injEq] at h
      exact h.symm
    · rw [if_neg h1] at h
      by_cases h2 : n ∈ visited
      · rw [if_pos h2] at h
        simp at h
      · rw [if_neg h2] at h
        cases hf : List.foldlM (fun acc c => visit g fuel c (n :: visiting) acc) visited (g n) with
        | error e' =>
          rw [hf] at h
          simp only [Except.error.injEq] at h
          subst h
          exact foldVisit_err g fuel ihf (g n) (n :: visiting) visited e' hf
        | ok w =>
          rw [hf] at h
          simp at h

theorem refEdge_mem_names {m : Layout} {a b : String} (h : refEdge m a b) :
    a ∈ m.cells.map Cell.name := by
  unfold refEdge succs at h
  cases hf : m.cells.find? (fun c => c.name = a) with
  | none => rw [hf] at h; exact absurd h (List.not_mem_nil b)
  | some c =>
    have hmem := List.mem_of_find?_eq_some hf
    have hpred := List.find?_some hf
    simp only [decide_eq_true_eq] at hpred
    subst hpred
    exact List.mem_map_of_mem Cell.name hmem

theorem checkAcyclic_ok_no_cycle {m : Layout} {v : List String}
    (h : checkAcyclic m = .ok v) : ¬ hasCycle m := by
  intro ⟨n, hcyc⟩
  unfold checkAcyclic at h
  obtain ⟨htopo, _, hall, _⟩ :=
    foldVisit_sound (succs m) (m.cells.length + 2)
      (visit_sound (succs m) (m.cells.length + 2)) (m.cells.map Cell.name) [] [] v
      (by simp [TopoList]) h
  have hn : n ∈ m.cells.map Cell.name := by
    obtain ⟨c, hstep, _⟩ := Relation.TransGen.head'_iff.mp hcyc
    exact refEdge_mem_names hstep
  exact topo_no_cycle htopo n (hall n hn) hcyc

theorem hasCycle_checkAcyclic {m : Layout} (h : hasCycle m) :
    checkAcyclic m = .error .cyclicReference := by
  cases hres : checkAcyclic m with
  | ok v => exact absurd h (checkAcyclic_ok_no_cycle hres)
  | error e =>
    have : e = .cyclicReference := by
      unfold checkAcyclic at hres
      exact foldVisit_err (succs m) (m.cells.length + 2)
        (visit_err (succs m) (m.cells.length + 2)) (m.cells.map Cell.name) [] [] e hres
    rw [this]

theorem hasCycle_checkRefs {m : Layout} (h : hasCycle m) :
    checkRefs m = .error .cyclicReference := by
  unfold checkRefs
  rw [hasCycle_checkAcyclic h]

theorem loadFromStream_parsePhase (s : List Nat) :
    loadFromStream s = (parsePhase s).bind (fun m => (checkRefs m).bind (fun _ => .ok m)) := by
  unfold loadFromStream parsePhase
  cases recordize (s.length + 1) s with
  | error e => rfl
  | ok rs =>
    simp only [bind, Except.bind]
    cases loadRecords rs with
    | error e => rfl
    | ok m =>
      cases checkRefs m <;> rfl

theorem load_cyclic {s : List Nat} {m : Layout} (hparse : parsePhase s = .ok m)
    (hcyc : hasCycle m) : loadFromStream s = .error .cyclicReference := by
  rw [loadFromStream_parsePhase, hparse]
  simp only [Except.bind]
  rw [hasCycle_checkRefs hcyc]

/-! ## OASIS writer name table -/

theorem nameRef_names (s : String) (st : WState) :
    (nameRef s st).2.2.names = if s ∈ st.names then st.names else st.names ++ [s] := by
  unfold nameRef
  by_cases h : s ∈ st.names <;> simp [h]

theorem emitLD_names (l d : Int) (st : WState) : (emitLD l d st).2.names = st.names := rfl

theorem writeElement_names (e : Element) (st : WState) :
    (writeElement e st).2.names = dedupeFrom st.names (elemTargets e) := by
  cases e with
  | polygon l d pts => simp [writeElement, elemTargets, dedupeFrom, emitLD_names]
  | pathEl l d w pts => simp [writeElement, elemTargets, dedupeFrom, emitLD_names]
  | box l d pts => simp [writeElement, elemTargets, dedupeFrom, emitLD_names]
  | text l d pos s => simp [writeElement, elemTargets, dedupeFrom, emitLD_names]
  | sref tgt t =>
    simp only [writeElement, elemTargets, dedupeFrom, List.foldl_cons, List.foldl_nil]
    rw [nameRef_names]
  | aref tgt t cols rows cv rv =>
    simp only [writeElement, elemTargets, dedupeFrom, List.foldl_cons, List.foldl_nil]
    rw [nameRef_names]

theorem writeElems_names (es : List Element) (st : WState) :
    (writeElems es st).2.names = dedupeFrom st.names (es.flatMap elemTargets) := by
  induction es generalizing st with
  | nil => simp [writeElems, dedupeFrom]
  | cons e es ih =>
    simp only [writeElems, List.flatMap_cons]
    rw [ih, writeElement_names]
    unfold dedupeFrom
    rw [List.foldl_append]

theorem writeCell_names (c : Cell) (st : WState) :
    (writeCell c st).2.names = dedupeFrom st.names (c.name :: cellTargets c) := by
  simp only [writeCell]
  rw [writeElems_names]
  simp only [dedupeFrom, List.foldl_cons]
  congr 1
  rw [nameRef_names]

theorem writeCells_names (cs : List Cell) (st : WState) :
    (writeCells cs st).2.names = dedupeFrom st.names (cs.flatMap (fun c => c.name :: cellTargets c)) := by
  induction cs generalizing st with
  | nil => simp [writeCells, dedupeFrom]
  | cons c cs ih =>
    simp only [writeCells, List.flatMap_cons]
    rw [ih, writeCell_names]
    unfold dedupeFrom
    rw [List.foldl_append]

theorem writerNames_eq_dedupe (m : Layout) : writerNames m = dedupe (travNames m) := by
  unfold writerNames dedupe travNames
  rw [writeCells_names]

/-! ## OASIS reader round trip

Each encoding device of the writer is inverted by the corresponding
decoder, and the record loop follows the writer's emission order, so the
written stream decodes back to the exact layout model. -/

theorem decUleb_uleb (n : Nat) : ∀ rest : List Nat, decUleb (uleb n ++ rest) = some (n, rest) := by
  induction n using Nat.strong_induction_on with
  | _ n ih =>
    intro rest
    rw [uleb]
    by_cases h : n < 128
    · simp [h, decUleb]
    · have hlt : n / 128 < n := Nat.div_lt_self (by omega) (by omega)
      rw [if_neg h]
      simp only [List.cons_append, decUleb, List.append_eq]
      rw [ih _ hlt]
      have h2 : ¬ (n % 128 + 128 < 128) := by omega
      rw [if_neg h2]
      dsimp only
      have h4 : (n % 128 + 128) % 128 = n % 128 := by omega
      rw [h4, Nat.mod_add_div n 128]

theorem decSleb_sleb (i : Int) (rest : List Nat) :
    decSleb (sleb i ++ rest) = some (i, rest) := by
  unfold sleb decSleb
  by_cases h : i < 0
  · rw [if_pos h, decUleb_uleb]
    dsimp only
    have h1 : (2 * i.natAbs + 1) % 2 = 1 := by omega
    have h2 : (2 * i.natAbs + 1) / 2 = i.natAbs := by omega
    rw [h1, h2]
    have h3 : -((i.natAbs : Nat) : Int) = i := by omega
    rw [h3]
    norm_num
  · rw [if_neg h, decUleb_uleb]
    dsimp only
    have h1 : (2 * i.natAbs) % 2 = 0 := by omega
    have h2 : (2 * i.natAbs) / 2 = i.natAbs := by omega
    rw [h1, h2]
    have h3 : ((i.natAbs : Nat) : Int) = i := by omega
    rw [h3]
    norm_num

theorem char_toNat_lt {s : String} (h : goodStr s = true) :
    ∀ c ∈ s.data, c.toNat < 128 := by
  intro c hc
  unfold goodStr at h
  simp only [Bool.and_eq_true, List.all_eq_true] at h
  have hg := h.1 c hc
  unfold goodChar at hg
  simp only [Bool.and_eq_true, decide_eq_true_eq] at hg
  exact hg.2

theorem map_ofNat_toNat {s : String} (h : goodStr s = true) :
    (s.data.map Char.toNat).map Char.ofNat = s.data := by
  rw [List.map_map]
  conv_rhs => rw [← List.map_id s.data]
  apply List.map_congr_left
  intro c hc
  exact char_ofNat_toNat (char_toNat_lt h c hc)

theorem decOasStr_oasStr {s : String} (h : goodStr s = true) (rest : List Nat) :
    decOasStr (oasStr s ++ rest) = some (s, rest) := by
  unfold oasStr decOasStr
  rw [List.append_assoc, decUleb_uleb]
  dsimp only
  have hlen : (s.data.map Char.toNat).length = s.data.length := by simp
  have hle : s.data.length ≤ ((s.data.map Char.toNat) ++ rest).length := by
    simp
  rw [if_pos hle]
  rw [List.take_left' hlen, List.drop_left' hlen, map_ofNat_toNat h]

theorem be_seven (n : Nat) :
    be 7 n = [n / 256 ^ 6 % 256, n / 256 ^ 5 % 256, n / 256 ^ 4 % 256,
      n / 256 ^ 3 % 256, n / 256 ^ 2 % 256, n / 256 % 256, n % 256] := by
  simp [be, Nat.div_div_eq_div_mul]

theorem decReal8_encReal {r : GdsReal} (h : r.wf) (rest : List Nat) :
    decReal8 (encReal r ++ rest) = some (r, rest) := by
  have h8 := decReal_encReal h
  rw [encReal, be_seven] at h8 ⊢
  simp only [List.cons_append, List.nil_append]
  simp only [decReal8]
  rw [h8]

theorem decDeltas_deltaChain (qs : List (Int × Int)) :
    ∀ (q : Int × Int) (rest : List Nat),
      decDeltas qs.length q (deltaChain q qs ++ rest) = some (qs, rest) := by
  induction qs with
  | nil => intro q rest; simp [deltaChain, decDeltas]
  | cons q' qs' ih =>
    intro q rest
    simp only [List.length_cons, deltaChain, List.append_assoc, decDeltas]
    rw [decSleb_sleb]
    dsimp only
    rw [decSleb_sleb]
    dsimp only
    have hx : q.1 + (q'.1 - q.1) = q'.1 := by ring
    have hy : q.2 + (q'.2 - q.2) = q'.2 := by ring
    rw [hx, hy]
    rw [ih q' rest]

theorem decPointList_enc (pts : List (Int × Int)) (rest : List Nat) :
    decPointList (encPointList pts ++ rest) = some (pts, rest) := by
  cases pts with
  | nil =>
    unfold encPointList decPointList
    simp only [List.length_nil, List.append_nil, List.nil_append]
    rw [decUleb_uleb]
  | cons q qs =>
    unfold encPointList decPointList
    simp only [List.length_cons, List.append_assoc]
    rw [decUleb_uleb]
    dsimp only
    rw [decSleb_sleb]
    dsimp only
    rw [decSleb_sleb]
    dsimp only
    rw [decDeltas_deltaChain]

theorem decLD_emitLD (l d : Int) (st : WState) (tail : List Nat) :
    ∃ info fb, (emitLD l d st).1 = info :: fb ∧
      decLD info st (fb ++ tail) = some (l, d, (emitLD l d st).2, tail) := by
  by_cases hL : st.modalLayer = some l <;> by_cases hD : st.modalDtype = some d
  · refine ⟨0, [], by simp [emitLD, hL, hD], ?_⟩
    simp [decLD, emitLD, hL, hD]
  · refine ⟨2, sleb d, by simp [emitLD, hL, hD], ?_⟩
    simp [decLD, emitLD, hL, hD, decSleb_sleb]
  · refine ⟨1, sleb l, by simp [emitLD, hL, hD], ?_⟩
    simp [decLD, emitLD, hL, hD, decSleb_sleb]
  · refine ⟨3, sleb l ++ sleb d, by simp [emitLD, hL, hD], ?_⟩
    simp [decLD, emitLD, hL, hD, decSleb_sleb, List.append_assoc]

theorem indexOf_lookup {s : String} {l : List String} (h : s ∈ l) :
    l[l.indexOf s]? = some s := by
  rw [List.getElem?_eq_getElem (List.indexOf_lt_length.mpr h)]
  simp [List.getElem_indexOf]

theorem concat_lookup (s : String) (l : List String) :
    (l ++ [s])[l.length]? = some s := by
  simp [List.getElem?_concat_length]

theorem mirror_decide (m : Bool) : (decide ((cond m 1 0 : Nat) = 1)) = m := by
  cases m <;> rfl

theorem loadOas_elem (e : Element) (st : WState) (hok : elemOk e = true) :
    ∃ k, k ≤ (writeElement e st).1.length ∧ ∀ fuel tail cn elems acc,
      loadOasGo (fuel + k) ((writeElement e st).1 ++ tail) st (some (cn, elems)) acc =
      loadOasGo fuel tail (writeElement e st).2 (some (cn, elems ++ [e])) acc := by
  cases e with
  | polygon l d pts =>
    refine ⟨1, ?_, ?_⟩
    · obtain ⟨info, fb, hfb, _⟩ := decLD_emitLD l d st []
      have hpair : emitLD l d st = (info :: fb, (emitLD l d st).2) := by rw [← hfb]
      simp only [writeElement]
      rw [hpair]
      simp
    · intro fuel tail cn elems acc
      obtain ⟨info, fb, hfb, hdec⟩ := decLD_emitLD l d st (encPointList pts ++ tail)
      have hpair : emitLD l d st = (info :: fb, (emitLD l d st).2) := by rw [← hfb]
      simp only [writeElement]
      rw [hpair]
      dsimp only
      simp only [List.cons_append, List.append_assoc]
      simp only [loadOasGo]
      simp only [show ((21:Nat) = 2) = False from by decide,
        show ((21:Nat) = 3) = False from by decide,
        show ((21:Nat) = 13) = False from by decide,
        show ((21:Nat) = 21) = True from by decide,
        if_false,
        if_true]
      simp only [bind, Option.bind]
      rw [hdec]
      dsimp only
      rw [decPointList_enc]
  | box l d pts =>
    refine ⟨1, ?_, ?_⟩
    · obtain ⟨info, fb, hfb, _⟩ := decLD_emitLD l d st []
      have hpair : emitLD l d st = (info :: fb, (emitLD l d st).2) := by rw [← hfb]
      simp only [writeElement]
      rw [hpair]
      simp
    · intro fuel tail cn elems acc
      obtain ⟨info, fb, hfb, hdec⟩ := decLD_emitLD l d st (encPointList pts ++ tail)
      have hpair : emitLD l d st = (info :: fb, (emitLD l d st).2) := by rw [← hfb]
      simp only [writeElement]
      rw [hpair]
      dsimp only
      simp only [List.cons_append, List.append_assoc]
      simp only [loadOasGo]
      simp only [show ((20:Nat) = 2) = False from by decide,
        show ((20:Nat) = 3) = False from by decide,
        show ((20:Nat) = 13) = False from by decide,
        show ((20:Nat) = 21) = False from by decide,
        show ((20:Nat) = 22) = False from by decide,
        show ((20:Nat) = 20) = True from by decide,
        if_false,
        if_true]
      simp only [bind, Option.bind]
      rw [hdec]
      dsimp only
      rw [decPointList_enc]
  | pathEl l d w pts =>
    refine ⟨1, ?_, ?_⟩
    · obtain ⟨info, fb, hfb, _⟩ := decLD_emitLD l d st []
      have hpair : emitLD l d st = (info :: fb, (emitLD l d st).2) := by rw [← hfb]
      simp only [writeElement]
      rw [hpair]
      simp
    · intro fuel tail cn elems acc
      obtain ⟨info, fb, hfb, hdec⟩ := decLD_emitLD l d st (sleb w ++ (encPointList pts ++ tail))
      have hpair : emitLD l d st = (info :: fb, (emitLD l d st).2) := by rw [← hfb]
      simp only [writeElement]
      rw [hpair]
      dsimp only
      simp only [List.cons_append, List.append_assoc]
      simp only [loadOasGo]
      simp only [show ((22:Nat) = 2) = False from by decide,
        show ((22:Nat) = 3) = False from by decide,
        show ((22:Nat) = 13) = False from by decide,
        show ((22:Nat) = 21) = False from by decide,
        show ((22:Nat) = 22) = True from by decide,
        if_false,
        if_true]
      simp only [bind, Option.bind]
      rw [hdec]
      dsimp only
      rw [decSleb_sleb]
      dsimp only
      rw [decPointList_enc]
  | text l d pos s =>
    simp only [elemOk, Bool.and_eq_true] at hok
    have hs : goodStr s = true := hok.2
    refine ⟨1, ?_, ?_⟩
    · obtain ⟨info, fb, hfb, _⟩ := decLD_emitLD l d st []
      have hpair : emitLD l d st = (info :: fb, (emitLD l d st).2) := by rw [← hfb]
      simp only [writeElement]
      rw [hpair]
      simp
    · intro fuel tail cn elems acc
      obtain ⟨info, fb, hfb, hdec⟩ :=
        decLD_emitLD l d st (sleb pos.1 ++ (sleb pos.2 ++ (oasStr s ++ tail)))
      have hpair : emitLD l d st = (info :: fb, (emitLD l d st).2) := by rw [← hfb]
      simp only [writeElement]
      rw [hpair]
      dsimp only
      simp only [List.cons_append, List.append_assoc]
      simp only [loadOasGo]
      simp only [show ((19:Nat) = 2) = False from by decide,
        show ((19:Nat) = 3) = False from by decide,
        show ((19:Nat) = 13) = False from by decide,
        show ((19:Nat) = 21) = False from by decide,
        show ((19:Nat) = 22) = False from by decide,
        show ((19:Nat) = 20) = False from by decide,
        show ((19:Nat) = 19) = True from by decide,
        if_false,
        if_true]
      simp only [bind, Option.bind]
      rw [hdec]
      dsimp only
      rw [decSleb_sleb]
      dsimp only
      rw [decSleb_sleb]
      dsimp only
      rw [decOasStr_oasStr hs]
  | sref tgt t =>
    simp only [elemOk, Bool.and_eq_true] at hok
    obtain ⟨hgood, htr⟩ := hok
    simp only [transformOk, realOk, Bool.and_eq_true, decide_eq_true_eq] at htr
    have hwmag : t.mag.wf := htr.1.1.1
    have hwang : t.angle.wf := htr.1.1.2
    by_cases hm : tgt ∈ st.names
    · have hnr : nameRef tgt st = (st.names.indexOf tgt, [], st) := by
        simp [nameRef, hm]
      refine ⟨1, ?_, ?_⟩
      · simp only [writeElement]
        rw [hnr]
        simp
      · intro fuel tail cn elems acc
        simp only [writeElement]
        rw [hnr]
        dsimp only
        simp only [List.nil_append, List.cons_append, List.append_assoc]
        simp only [loadOasGo]
        simp only [show ((17:Nat) = 2) = False from by decide,
          show ((17:Nat) = 3) = False from by decide,
          show ((17:Nat) = 13) = False from by decide,
          show ((17:Nat) = 21) = False from by decide,
          show ((17:Nat) = 22) = False from by decide,
          show ((17:Nat) = 20) = False from by decide,
          show ((17:Nat) = 19) = False from by decide,
          show ((17:Nat) = 17) = True from by decide,
          if_false,
          if_true, bind, Option.bind]
        rw [decUleb_uleb]
        dsimp only
        rw [indexOf_lookup hm]
        dsimp only
        rw [decSleb_sleb]
        dsimp only
        rw [decSleb_sleb]
        dsimp only
        rw [decReal8_encReal hwang]
        dsimp only
        rw [decReal8_encReal hwmag]
        dsimp only
        simp [mirror_decide, transform_eta]
    · have hnr : nameRef tgt st =
          (st.names.length, cellnameRec tgt, { st with names := st.names ++ [tgt] }) := by
        simp [nameRef, hm]
      refine ⟨2, ?_, ?_⟩
      · simp only [writeElement]
        rw [hnr]
        dsimp only
        simp only [cellnameRec, List.cons_append, List.length_append, List.length_cons]
        omega
      · intro fuel tail cn elems acc
        simp only [writeElement]
        rw [hnr]
        dsimp only
        rw [show fuel + 2 = fuel + 1 + 1 from rfl]
        simp only [cellnameRec, List.cons_append, List.append_assoc]
        simp only [loadOasGo]
        simp only [show ((3:Nat) = 2) = False from by decide,
          show ((3:Nat) = 3) = True from by decide,
          if_false,
          if_true]
        simp only [bind, Option.bind]
        rw [decOasStr_oasStr hgood]
        dsimp only
        simp only [loadOasGo]
        simp only [show ((17:Nat) = 2) = False from by decide,
          show ((17:Nat) = 3) = False from by decide,
          show ((17:Nat) = 13) = False from by decide,
          show ((17:Nat) = 21) = False from by decide,
          show ((17:Nat) = 22) = False from by decide,
          show ((17:Nat) = 20) = False from by decide,
          show ((17:Nat) = 19) = False from by decide,
          show ((17:Nat) = 17) = True from by decide,
          if_false,
          if_true, bind, Option.bind]
        rw [decUleb_uleb]
        dsimp only
        rw [concat_lookup]
        dsimp only
        rw [decSleb_sleb]
        dsimp only
        rw [decSleb_sleb]
        dsimp only
        rw [decReal8_encReal hwang]
        dsimp only
        rw [decReal8_encReal hwmag]
        dsimp only
        simp [mirror_decide, transform_eta]
  | aref tgt t cols rows cv rv =>
    simp only [elemOk, Bool.and_eq_true] at hok
    have hgood : goodStr tgt = true := hok.1.1.1.1.1.1.1.1.1
    have htr := hok.1.1.1.1.1.1.1.1.2
    simp only [transformOk, realOk, Bool.and_eq_true, decide_eq_true_eq] at htr
    have hwmag : t.mag.wf := htr.1.1.1
    have hwang : t.angle.wf := htr.1.1.2
    by_cases hm : tgt ∈ st.names
    · have hnr : nameRef tgt st = (st.names.indexOf tgt, [], st) := by
        simp [nameRef, hm]
      refine ⟨1, ?_, ?_⟩
      · simp only [writeElement]
        rw [hnr]
        simp
      · intro fuel tail cn elems acc
        simp only [writeElement]
        rw [hnr]
        dsimp only
        simp only [List.nil_append, List.cons_append, List.append_assoc]
        simp only [loadOasGo]
        simp only [show ((18:Nat) = 2) = False from by decide,
          show ((18:Nat) = 3) = False from by decide,
          show ((18:Nat) = 13) = False from by decide,
          show ((18:Nat) = 21) = False from by decide,
          show ((18:Nat) = 22) = False from by decide,
          show ((18:Nat) = 20) = False from by decide,
          show ((18:Nat) = 19) = False from by decide,
          show ((18:Nat) = 17) = False from by decide,
          show ((18:Nat) = 18) = True from by decide,
          if_false,
          if_true, bind, Option.bind]
        rw [decUleb_uleb]
        dsimp only
        rw [indexOf_lookup hm]
        dsimp only
        rw [decSleb_sleb]
        dsimp only
        rw [decSleb_sleb]
        dsimp only
        rw [decUleb_uleb]
        dsimp only
        rw [decUleb_uleb]
        dsimp only
        rw [decSleb_sleb]
        dsimp only
        rw [decSleb_sleb]
        dsimp only
        rw [decSleb_sleb]
        dsimp only
        rw [decSleb_sleb]
        dsimp only
        rw [decReal8_encReal hwang]
        dsimp only
        rw [decReal8_encReal hwmag]
        dsimp only
        simp [mirror_decide, transform_eta]
    · have hnr : nameRef tgt st =
          (st.names.length, cellnameRec tgt, { st with names := st.names ++ [tgt] }) := by
        simp [nameRef, hm]
      refine ⟨2, ?_, ?_⟩
      · simp only [writeElement]
        rw [hnr]
        dsimp only
        simp only [cellnameRec, List.cons_append, List.length_append, List.length_cons]
        omega
      · intro fuel tail cn elems acc
        simp only [writeElement]
        rw [hnr]
        dsimp only
        rw [show fuel + 2 = fuel + 1 + 1 from rfl]
        simp only [cellnameRec, List.cons_append, List.append_assoc]
        simp only [loadOasGo]
        simp only [show ((3:Nat) = 2) = False from by decide,
          show ((3:Nat) = 3) = True from by decide,
          if_false,
          if_true]
        simp only [bind, Option.bind]
        rw [decOasStr_oasStr hgood]
        dsimp only
        simp only [loadOasGo]
        simp only [show ((18:Nat) = 2) = False from by decide,
          show ((18:Nat) = 3) = False from by decide,
          show ((18:Nat) = 13) = False from by decide,
          show ((18:Nat) = 21) = False from by decide,
          show ((18:Nat) = 22) = False from by decide,
          show ((18:Nat) = 20) = False from by decide,
          show ((18:Nat) = 19) = False from by decide,
          show ((18:Nat) = 17) = False from by decide,
          show ((18:Nat) = 18) = True from by decide,
          if_false,
          if_true, bind, Option.bind]
        rw [decUleb_uleb]
        dsimp only
        rw [concat_lookup]
        dsimp only
        rw [decSleb_sleb]
        dsimp only
        rw [decSleb_sleb]
        dsimp only
        rw [decUleb_uleb]
        dsimp only
        rw [decUleb_uleb]
        dsimp only
        rw [decSleb_sleb]
        dsimp only
        rw [decSleb_sleb]
        dsimp only
        rw [decSleb_sleb]
        dsimp only
        rw [decSleb_sleb]
        dsimp only
        rw [decReal8_encReal hwang]
        dsimp only
        rw [decReal8_encReal hwmag]
        dsimp only
        simp [mirror_decide, transform_eta]

theorem loadOas_elems (es : List Element) (st : WState) (hok : es.all elemOk = true) :
    ∃ k, k ≤ (writeElems es st).1.length ∧ ∀ fuel tail cn elems acc,
      loadOasGo (fuel + k) ((writeElems es st).1 ++ tail) st (some (cn, elems)) acc =
      loadOasGo fuel tail (writeElems es st).2 (some (cn, elems ++ es)) acc := by
  induction es generalizing st with
  | nil =>
    refine ⟨0, by simp [writeElems], ?_⟩
    intro fuel tail cn elems acc
    simp [writeElems]
  | cons e es ih =>
    simp only [List.all_cons, Bool.and_eq_true] at hok
    obtain ⟨k1, hk1, h1⟩ := loadOas_elem e st hok.1
    obtain ⟨k2, hk2, h2⟩ := ih (writeElement e st).2 hok.2
    have hb : (writeElems (e :: es) st).1 =
        (writeElement e st).1 ++ (writeElems es (writeElement e st).2).1 := by
      simp [writeElems]
    have hs2 : (writeElems (e :: es) st).2 = (writeElems es (writeElement e st).2).2 := by
      simp [writeElems]
    refine ⟨k2 + k1, ?_, ?_⟩
    · rw [hb]
      simp only [List.length_append]
      omega
    · intro fuel tail cn elems acc
      rw [hb, hs2, List.append_assoc]
      have harith : fuel + (k2 + k1) = (fuel + k2) + k1 := by omega
      rw [harith, h1, h2]
      simp only [List.append_assoc, List.singleton_append]

theorem loadOas_cell (c : Cell) (st : WState) (hok : cellOk c = true) :
    ∃ k, k ≤ (writeCell c st).1.length ∧ ∀ fuel tail cur acc,
      loadOasGo (fuel + k) ((writeCell c st).1 ++ tail) st cur acc =
      loadOasGo fuel tail (writeCell c st).2 (some (c.name, c.elements)) (closeCur cur acc) := by
  simp only [cellOk, Bool.and_eq_true] at hok
  obtain ⟨hgood, helems⟩ := hok
  by_cases hm : c.name ∈ st.names
  · have hnr : nameRef c.name { st with modalLayer := none, modalDtype := none } =
        (st.names.indexOf c.name, [],
          { st with modalLayer := none, modalDtype := none }) := by
      simp [nameRef, hm]
    obtain ⟨k2, hk2, h2⟩ :=
      loadOas_elems c.elements { st with modalLayer := none, modalDtype := none } helems
    refine ⟨k2 + 1, ?_, ?_⟩
    · simp only [writeCell]
      rw [hnr]
      dsimp only
      simp only [List.nil_append, List.length_cons, List.length_append]
      omega
    · intro fuel tail cur acc
      simp only [writeCell]
      rw [hnr]
      dsimp only
      simp only [List.nil_append, List.cons_append, List.append_assoc]
      rw [show fuel + (k2 + 1) = (fuel + k2) + 1 from by omega]
      simp only [loadOasGo]
      simp only [show ((13:Nat) = 2) = False from by decide,
        show ((13:Nat) = 3) = False from by decide,
        show ((13:Nat) = 13) = True from by decide,
        if_false, if_true, bind, Option.bind]
      rw [decUleb_uleb]
      dsimp only
      rw [indexOf_lookup hm]
      dsimp only
      rw [h2]
      simp only [List.nil_append]
  · have hnr : nameRef c.name { st with modalLayer := none, modalDtype := none } =
        (st.names.length, cellnameRec c.name,
          { st with modalLayer := none, modalDtype := none, names := st.names ++ [c.name] }) := by
      simp [nameRef, hm]
    obtain ⟨k2, hk2, h2⟩ :=
      loadOas_elems c.elements
        { st with modalLayer := none, modalDtype := none, names := st.names ++ [c.name] } helems
    refine ⟨k2 + 2, ?_, ?_⟩
    · simp only [writeCell]
      rw [hnr]
      dsimp only
      simp only [cellnameRec, List.cons_append, List.length_append, List.length_cons]
      omega
    · intro fuel tail cur acc
      simp only [writeCell]
      rw [hnr]
      dsimp only
      simp only [cellnameRec, List.cons_append, List.append_assoc]
      rw [show fuel + (k2 + 2) = ((fuel + k2) + 1) + 1 from by omega]
      simp only [loadOasGo]
      simp only [show ((3:Nat) = 2) = False from by decide,
        show ((3:Nat) = 3) = True from by decide,
        if_false, if_true, bind, Option.bind]
      rw [decOasStr_oasStr hgood]
      dsimp only
      simp only [loadOasGo]
      simp only [show ((13:Nat) = 2) = False from by decide,
        show ((13:Nat) = 3) = False from by decide,
        show ((13:Nat) = 13) = True from by decide,
        if_false, if_true, bind, Option.bind]
      rw [decUleb_uleb]
      dsimp only
      rw [concat_lookup]
      dsimp only
      rw [h2]
      simp only [List.nil_append]

theorem loadOas_cells (cs : List Cell) (st : WState) (hok : cs.all cellOk = true) :
    ∃ k, k ≤ (writeCells cs st).1.length ∧ ∀ fuel tail cur acc,
      loadOasGo (fuel + k) ((writeCells cs st).1 ++ tail) st cur acc =
      loadOasGo fuel tail (writeCells cs st).2
        (foldCells cs cur acc).1 (foldCells cs cur acc).2 := by
  induction cs generalizing st with
  | nil =>
    refine ⟨0, by simp [writeCells], ?_⟩
    intro fuel tail cur acc
    simp [writeCells, foldCells]
  | cons c cs ih =>
    simp only [List.all_cons, Bool.and_eq_true] at hok
    obtain ⟨k1, hk1, h1⟩ := loadOas_cell c st hok.1
    obtain ⟨k2, hk2, h2⟩ := ih (writeCell c st).2 hok.2
    have hb : (writeCells (c :: cs) st).1 =
        (writeCell c st).1 ++ (writeCells cs (writeCell c st).2).1 := by
      simp [writeCells]
    have hs2 : (writeCells (c :: cs) st).2 = (writeCells cs (writeCell c st).2).2 := by
      simp [writeCells]
    refine ⟨k2 + k1, ?_, ?_⟩
    · rw [hb]
      simp only [List.length_append]
      omega
    · intro fuel tail cur acc
      rw [hb, hs2, List.append_assoc]
      have harith : fuel + (k2 + k1) = (fuel + k2) + k1 := by omega
      rw [harith, h1, h2]
      simp only [foldCells]

theorem closeCur_foldCells (cs : List Cell) :
    ∀ cur acc, closeCur (foldCells cs cur acc).1 (foldCells cs cur acc).2 =
      closeCur cur acc ++ cs := by
  induction cs with
  | nil => intro cur acc; simp [foldCells]
  | cons c cs ih =>
    intro cur acc
    simp only [foldCells]
    rw [ih]
    simp [closeCur, cell_eta, List.append_assoc]

theorem load_oas_save {m : Layout} (hok : encodable m = true) :
    loadOasStream (saveToStream m) = some m := by
  unfold encodable at hok
  simp only [Bool.and_eq_true] at hok
  have hlib : goodStr m.libName = true := hok.1.1.1.1.1
  have huu : m.userUnit.wf := of_decide_eq_true hok.1.1.1.1.2
  have hdu : m.dbUnit.wf := of_decide_eq_true hok.1.1.1.2
  have hcells : m.cells.all cellOk = true := hok.1.1.2
  obtain ⟨k, hk, hstep⟩ := loadOas_cells m.cells {} hcells
  have hform : saveToStream m = (oasisMagic ++ [1]) ++
      (oasStr m.libName ++ (encReal m.userUnit ++ (encReal m.dbUnit ++
        ((writeCells m.cells {}).1 ++ [2])))) := by
    simp [saveToStream, List.append_assoc]
  rw [hform]
  unfold loadOasStream
  have hlen14 : (oasisMagic ++ [1]).length = 14 := by decide
  rw [List.take_left' hlen14, List.drop_left' hlen14, if_pos rfl]
  dsimp only
  rw [decOasStr_oasStr hlib]
  dsimp only
  rw [decReal8_encReal huu]
  dsimp only
  rw [decReal8_encReal hdu]
  dsimp only
  set L : Nat := (writeCells m.cells {}).1.length with hL
  have hlen : ((writeCells m.cells {}).1 ++ [2]).length + 1 = (L + 2 - k) + k := by
    simp only [List.length_append, List.length_cons, List.length_nil, ← hL]
    omega
  rw [hlen, hstep (L + 2 - k) [2] none []]
  rw [show L + 2 - k = (L + 1 - k) + 1 from by omega]
  simp only [loadOasGo]
  simp only [show ((2:Nat) = 2) = True from by decide, if_true]
  rw [closeCur_foldCells]
  simp only [closeCur, List.nil_append]

/-! ## Transform algebra and generator lemmas -/

theorem applyToPoint_stages (t : RTransform) (p : ℝ × ℝ) :
    applyToPoint t p = raTranslate t (raRotate t (raMirror t (raMag t p))) := by
  unfold applyToPoint raTranslate raRotate raMirror raMag
  by_cases h : t.mirrorX <;> simp [h]

theorem arrayOffsets_2x2 :
    arrayOffsets 2 2 (10, 0) (0, 10) = [(0, 0), (10, 0), (0, 10), (10, 10)] := by
  decide

theorem applyToPoint_id_origin : applyToPoint idRT (0, 0) = (0, 0) := by
  unfold applyToPoint idRT
  norm_num

theorem resolveArray_2x2 :
    resolveArray idRT 2 2 (10, 0) (0, 10) (0, 0) =
      [(0, 0), (10, 0), (0, 10), (10, 10)] := by
  unfold resolveArray
  rw [arrayOffsets_2x2, applyToPoint_id_origin]
  norm_num

theorem countAB_step (s : List GSym) : countAB (lsystemStep s) = 7 * countAB s := by
  induction s with
  | nil => rfl
  | cons c cs ih =>
    have hstep : lsystemStep (c :: cs) = applyRule c ++ lsystemStep cs := by
      simp [lsystemStep, List.flatMap_cons]
    rw [hstep]
    have happ : countAB (applyRule c ++ lsystemStep cs) =
        countAB (applyRule c) + countAB (lsystemStep cs) := by
      simp [countAB, List.filter_append]
    rw [happ, ih]
    cases c <;> simp [applyRule, countAB, ruleA, ruleB, isAB] <;> ring

theorem countAB_lsystem (n : Nat) : countAB (lsystemInstructions n) = 7 ^ n := by
  induction n with
  | zero => rfl
  | succ n ih =>
    rw [lsystemInstructions, countAB_step, ih]
    ring

theorem turtleAux_length (step : ℝ) (l : List GSym) :
    ∀ (q : ℝ × ℝ) (θ : ℝ), (turtleAux step l q θ).length = countAB l := by
  induction l with
  | nil => intro q θ; rfl
  | cons c r ih =>
    intro q θ
    cases c <;> simp [turtleAux, countAB, isAB, List.filter_cons] <;> exact ih _ _

theorem turtlePath_length (instr : List GSym) (step : ℝ) :
    (turtlePath instr step).length = countAB instr + 1 := by
  simp [turtlePath, turtleAux_length]

theorem turtlePath_head (instr : List GSym) (step : ℝ) :
    (turtlePath instr step).head? = some (0, 0) := rfl

theorem foldMin_le (l : List ℚ) : ∀ a : ℚ, foldMin a l ≤ a ∧ ∀ x ∈ l, foldMin a l ≤ x := by
  induction l with
  | nil => intro a; exact ⟨le_refl a, by simp⟩
  | cons b bs ih =>
    intro a
    have h := ih (min a b)
    constructor
    · calc foldMin a (b :: bs) = foldMin (min a b) bs := rfl
        _ ≤ min a b := h.1
        _ ≤ a := min_le_left a b
    · intro x hx
      rcases List.mem_cons.mp hx with rfl | hx'
      · calc foldMin a (x :: bs) ≤ min a x := h.1
          _ ≤ x := min_le_right a x
      · exact h.2 x hx'

theorem le_foldMax (l : List ℚ) : ∀ a : ℚ, a ≤ foldMax a l ∧ ∀ x ∈ l, x ≤ foldMax a l := by
  induction l with
  | nil => intro a; exact ⟨le_refl a, by simp⟩
  | cons b bs ih =>
    intro a
    have h := ih (max a b)
    constructor
    · calc a ≤ max a b := le_max_left a b
        _ ≤ foldMax (max a b) bs := h.1
        _ = foldMax a (b :: bs) := rfl
    · intro x hx
      rcases List.mem_cons.mp hx with rfl | hx'
      · calc x ≤ max a x := le_max_right a x
          _ ≤ foldMax (max a x) bs := h.1
      · exact h.2 x hx'

theorem scaled_bound {x xmin xmax D S : ℚ} (h1 : xmin ≤ x) (h2 : x ≤ xmax)
    (hD : xmax - xmin ≤ D) (hDpos : 0 < D) (hS : 0 ≤ S) :
    -(S / 2) ≤ (x - (xmin + xmax) / 2) * (S / D) ∧
      (x - (xmin + xmax) / 2) * (S / D) ≤ S / 2 := by
  have hscale : 0 ≤ S / D := div_nonneg hS hDpos.le
  have heq : (D / 2) * (S / D) = S / 2 := by
    field_simp
    ring
  constructor
  · have hxc : -(D / 2) ≤ x - (xmin + xmax) / 2 := by linarith
    have hm := mul_le_mul_of_nonneg_right hxc hscale
    have heq2 : -(D / 2) * (S / D) = -(S / 2) := by
      field_simp
      ring
    linarith [heq2 ▸ hm]
  · have hxc : x - (xmin + xmax) / 2 ≤ D / 2 := by linarith
    have hm := mul_le_mul_of_nonneg_right hxc hscale
    linarith [heq ▸ hm]

theorem fitToViewbox_spec {points : List (ℚ × ℚ)} (hne : points ≠ [])
    (size margin : ℚ) :
    ∃ out, fitToViewbox points size margin = some out ∧
      out.length = points.length ∧
      (2 * margin ≤ size → ∀ q ∈ out,
        margin ≤ q.1 ∧ q.1 ≤ size - margin ∧ margin ≤ q.2 ∧ q.2 ≤ size - margin) := by
  obtain ⟨p, ps, rfl⟩ : ∃ p ps, points = p :: ps := by
    cases points with
    | nil => exact absurd rfl hne
    | cons p ps => exact ⟨p, ps, rfl⟩
  obtain ⟨px, py⟩ := p
  simp only [fitToViewbox]
  refine ⟨_, rfl, by simp, ?_⟩
  intro hsz q hq
  set xmin := foldMin px (ps.map Prod.fst) with hxmin
  set xmax := foldMax px (ps.map Prod.fst) with hxmax
  set ymin := foldMin py (ps.map Prod.snd) with hymin
  set ymax := foldMax py (ps.map Prod.snd) with hymax
  set w := max (1 / 1000000000) (xmax - xmin) with hw
  set hh := max (1 / 1000000000) (ymax - ymin) with hhh
  set D := max w hh with hD
  set S := size - 2 * margin with hS
  have hSnn : 0 ≤ S := by rw [hS]; linarith
  have hDpos : 0 < D := by
    rw [hD, hw]
    calc (0 : ℚ) < 1 / 1000000000 := by norm_num
      _ ≤ max (1 / 1000000000) (xmax - xmin) := le_max_left _ _
      _ ≤ max (max (1 / 1000000000) (xmax - xmin)) hh := le_max_left _ _
  have hwD : xmax - xmin ≤ D := by
    rw [hD, hw]
    calc xmax - xmin ≤ max (1 / 1000000000) (xmax - xmin) := le_max_right _ _
      _ ≤ _ := le_max_left _ _
  have hhD : ymax - ymin ≤ D := by
    rw [hD, hhh]
    calc ymax - ymin ≤ max (1 / 1000000000) (ymax - ymin) := le_max_right _ _
      _ ≤ _ := le_max_right _ _
  rcases List.mem_map.mp hq with ⟨⟨x, y⟩, hxy, rfl⟩
  have hxb : xmin ≤ x ∧ x ≤ xmax := by
    rcases List.mem_cons.mp hxy with heq | hmem
    · rw [Prod.mk.injEq] at heq
      obtain ⟨rfl, rfl⟩ := heq
      exact ⟨(foldMin_le (ps.map Prod.fst) x).1, (le_foldMax (ps.map Prod.fst) x).1⟩
    · exact ⟨(foldMin_le (ps.map Prod.fst) px).2 x (List.mem_map_of_mem Prod.fst hmem),
        (le_foldMax (ps.map Prod.fst) px).2 x (List.mem_map_of_mem Prod.fst hmem)⟩
  have hyb : ymin ≤ y ∧ y ≤ ymax := by
    rcases List.mem_cons.mp hxy with heq | hmem
    · rw [Prod.mk.injEq] at heq
      obtain ⟨rfl, rfl⟩ := heq
      exact ⟨(foldMin_le (ps.map Prod.snd) y).1, (le_foldMax (ps.map Prod.snd) y).1⟩
    · exact ⟨(foldMin_le (ps.map Prod.snd) py).2 y (List.mem_map_of_mem Prod.snd hmem),
        (le_foldMax (ps.map Prod.snd) py).2 y (List.mem_map_of_mem Prod.snd hmem)⟩
  have hxs := scaled_bound hxb.1 hxb.2 hwD hDpos hSnn
  have hys := scaled_bound hyb.1 hyb.2 hhD hDpos hSnn
  have hys' : -(S / 2) ≤ ((ymin + ymax) / 2 - y) * (S / D) ∧
      ((ymin + ymax) / 2 - y) * (S / D) ≤ S / 2 := by
    have hneg : (ymin + ymax) / 2 - y = -(y - (ymin + ymax) / 2) := by ring
    rw [hneg]
    constructor
    · rw [neg_mul]
      linarith [hys.2]
    · rw [neg_mul]
      linarith [hys.1]
  dsimp only
  refine ⟨?_, ?_, ?_, ?_⟩
  · linarith [hxs.1]
  · linarith [hxs.2]
  · linarith [hys'.1]
  · linarith [hys'.2]



/-! ## Reader accumulation order and wrapper delegation -/

theorem runCells_acc_order :
    ∀ (rs : List Rec) (mode : CMode) (out : List Cell),
      runCells rs mode = .ok out → ∃ suffix, out = mode.cellsAcc ++ suffix := by
  intro rs
  induction rs with
  | nil =>
    intro mode out h
    simp [runCells] at h
  | cons r rest ih =>
    obtain ⟨t, pl⟩ := r
    intro mode out h
    simp only [runCells] at h
    by_cases hk : t ∉ knownTags
    · rw [if_pos hk] at h
      exact ih mode out h
    · rw [if_neg hk] at h
      cases mode with
      | top cells =>
        dsimp only at h
        by_cases h1 : t = tENDLIB
        · rw [if_pos h1] at h
          simp only [Except.ok.injEq] at h
          exact ⟨[], by simp [← h, CMode.cellsAcc]⟩
        · rw [if_neg h1] at h
          by_cases h2 : t = tBGNSTR
          · rw [if_pos h2] at h
            exact (ih _ _ h).imp fun _ h' => h'
          · rw [if_neg h2] at h
            exact Except.noConfusion h
      | wantName cells =>
        dsimp only at h
        by_cases h1 : t = tSTRNAME
        · rw [if_pos h1] at h
          by_cases h2 : (cells.map Cell.name).contains (decStr pl)
          · simp only [h2, if_true] at h
            exact Except.noConfusion h
          · rw [Bool.not_eq_true] at h2
            simp only [h2, Bool.false_eq_true, if_false] at h
            exact (ih _ _ h).imp fun _ h' => h'
        · rw [if_neg h1] at h
          exact Except.noConfusion h
      | inStr cells cname elems =>
        dsimp only at h
        by_cases h1 : t = tENDSTR
        · rw [if_pos h1] at h
          obtain ⟨suf, hsuf⟩ := ih _ _ h
          refine ⟨[Cell.mk cname elems] ++ suf, ?_⟩
          rw [hsuf]
          simp only [CMode.cellsAcc]
          rw [List.append_assoc]
        · rw [if_neg h1] at h
          by_cases h2 : t = tBOUNDARY
          · rw [if_pos h2] at h
            exact (ih _ _ h).imp fun _ h' => h'
          · rw [if_neg h2] at h
            by_cases h3 : t = tPATH
            · rw [if_pos h3] at h
              exact (ih _ _ h).imp fun _ h' => h'
            · rw [if_neg h3] at h
              by_cases h4 : t = tBOX
              · rw [if_pos h4] at h
                exact (ih _ _ h).imp fun _ h' => h'
              · rw [if_neg h4] at h
                by_cases h5 : t = tTEXT
                · rw [if_pos h5] at h
                  exact (ih _ _ h).imp fun _ h' => h'
                · rw [if_neg h5] at h
                  by_cases h6 : t = tSREF
                  · rw [if_pos h6] at h
                    exact (ih _ _ h).imp fun _ h' => h'
                  · rw [if_neg h6] at h
                    by_cases h7 : t = tAREF
                    · rw [if_pos h7] at h
                      exact (ih _ _ h).imp fun _ h' => h'
                    · rw [if_neg h7] at h
                      exact Except.noConfusion h
      | inElem cells cname elems kind p =>
        dsimp only at h
        by_cases h1 : t = tENDEL
        · rw [if_pos h1] at h
          cases hfin : finalize kind p with
          | some e =>
            rw [hfin] at h
            exact (ih _ _ h).imp fun _ h' => h'
          | none =>
            rw [hfin] at h
            exact Except.noConfusion h
        · rw [if_neg h1] at h
          by_cases h2 : t = tLAYER
          · rw [if_pos h2] at h
            by_cases hl : pl.length = 2
            · rw [if_pos hl] at h
              exact (ih _ _ h).imp fun _ h' => h'
            · rw [if_neg hl] at h
              exact Except.noConfusion h
          · rw [if_neg h2] at h
            by_cases h3 : t = tDATATYPE
            · rw [if_pos h3] at h
              by_cases hl : pl.length = 2
              · rw [if_pos hl] at h
                exact (ih _ _ h).imp fun _ h' => h'
              · rw [if_neg hl] at h
                exact Except.noConfusion h
            · rw [if_neg h3] at h
              by_cases h4 : t = tWIDTH
              · rw [if_pos h4] at h
                by_cases hl : pl.length = 4
                · rw [if_pos hl] at h
                  exact (ih _ _ h).imp fun _ h' => h'
                · rw [if_neg hl] at h
                  exact Except.noConfusion h
              · rw [if_neg h4] at h
                by_cases h5 : t = tXY
                · rw [if_pos h5] at h
                  by_cases hl : pl.length % 8 = 0
                  · rw [if_pos hl] at h
                    exact (ih _ _ h).imp fun _ h' => h'
                  · rw [if_neg hl] at h
                    exact Except.noConfusion h
                · rw [if_neg h5] at h
                  by_cases h6 : t = tSNAME
                  · rw [if_pos h6] at h
                    exact (ih _ _ h).imp fun _ h' => h'
                  · rw [if_neg h6] at h
                    by_cases h7 : t = tCOLROW
                    · rw [if_pos h7] at h
                      by_cases hl : pl.length = 4
                      · rw [if_pos hl] at h
                        exact (ih _ _ h).imp fun _ h' => h'
                      · rw [if_neg hl] at h
                        exact Except.noConfusion h
                    · rw [if_neg h7] at h
                      by_cases h8 : t = tSTRANS
                      · rw [if_pos h8] at h
                        match pl, h with
                        | [b0, b1], h => exact (ih _ _ h).imp fun _ h' => h'
                        | [], h => exact Except.noConfusion h
                        | [b0], h => exact Except.noConfusion h
                        | b0 :: b1 :: b2 :: bs, h => exact Except.noConfusion h
                      · rw [if_neg h8] at h
                        by_cases h9 : t = tMAG
                        · rw [if_pos h9] at h
                          cases hd : decReal pl with
                          | some rr =>
                            rw [hd] at h
                            exact (ih _ _ h).imp fun _ h' => h'
                          | none =>
                            rw [hd] at h
                            exact Except.noConfusion h
                        · rw [if_neg h9] at h
                          by_cases h10 : t = tANGLE
                          · rw [if_pos h10] at h
                            cases hd : decReal pl with
                            | some rr =>
                              rw [hd] at h
                              exact (ih _ _ h).imp fun _ h' => h'
                            | none =>
                              rw [hd] at h
                              exact Except.noConfusion h
                          · rw [if_neg h10] at h
                            by_cases h11 : t = tSTRING
                            · rw [if_pos h11] at h
                              exact (ih _ _ h).imp fun _ h' => h'
                            · rw [if_neg h11] at h
                              exact Except.noConfusion h

theorem readRecord_odd (a b c d : Nat) (s' : List Nat)
    (hodd : (a * 256 + b) % 2 = 1) :
    readRecord (a :: b :: c :: d :: s') = .error .invalidRecordLength := by
  rw [readRecord]
  rw [if_pos hodd]

theorem loadFromStream_total (s : List Nat) :
    (∃ m, loadFromStream s = .ok m) ∨ (∃ e, loadFromStream s = .error e) := by
  cases h : loadFromStream s with
  | ok m => exact Or.inl ⟨m, rfl⟩
  | error e => exact Or.inr ⟨e, rfl⟩

theorem wrapper_delegation (E : LowLevel) (self : Py.Layout E) (path : PyVal) :
    Py.Layout.cells self = E.cellNames self.inner ∧
    Py.Layout.load_gds self path = ⟨E.loadGds self.inner (pyStr path)⟩ ∧
    Py.Layout.save_oas self path = E.saveOas self.inner (pyStr path) :=
  ⟨rfl, rfl, rfl⟩

/-! ## Claim theorems -/

/-- C1: for every loaded layout, the list-cell-names operation returns the
cell names in Layout declaration order — the order cells were finalized by
the Reader (the reader only ever appends a finalized cell at the end of the
accumulated list) — and for a library declaring `via`, `nand2`, `inv1`,
`abc2` in that order it returns exactly that list. -/
theorem claim_C1 :
    (∀ m : Layout, listCellNames m = m.cells.map Cell.name) ∧
    (∀ (rs : List Rec) (mode : CMode) (out : List Cell),
      runCells rs mode = .ok out → ∃ suffix, out = mode.cellsAcc ++ suffix) ∧
    loadFromStream (bytesOf exampleModel) = .ok exampleModel ∧
    listCellNames exampleModel = ["via", "nand2", "inv1", "abc2"] := by
  refine ⟨fun m => rfl, runCells_acc_order, ?_, by decide⟩
  exact load_encode_ok (by decide)

/-- C1 witness: the reader-order conjunct applied to a concrete record
stream. -/
theorem claim_C1_witness :
    runCells [(tENDLIB, [])] (CMode.top [⟨"via", []⟩]) = .ok [⟨"via", []⟩] ∧
    ∃ suffix, [(⟨"via", []⟩ : Cell)] = (CMode.top [⟨"via", []⟩]).cellsAcc ++ suffix :=
  ⟨by decide, claim_C1.2.1 [(tENDLIB, [])] (CMode.top [⟨"via", []⟩]) [⟨"via", []⟩] (by decide)⟩

/-- C2: for any layout model with no unsupported constructs, loading the
bytes produced by encoding the model yields the model back exactly: the
GDSII record encoding reloads through the reader, and the OASIS stream
written by saveToStream — whose point lists are delta-compressed — decodes
back to the identical absolute coordinates, fields and cells, so the round
trip of saveToStream followed by the loading direction is the identity on
such models. -/
theorem claim_C2 (m : Layout) (hok : encodable m = true) :
    loadFromStream (bytesOf m) = .ok m ∧
    loadOasStream (saveToStream m) = some m :=
  ⟨load_encode_ok hok, load_oas_save hok⟩

set_option maxRecDepth 40000 in
/-- C2 witness: both round trips evaluated on a concrete four-cell layout. -/
theorem claim_C2_witness :
    encodable exampleModel = true ∧
    (loadFromStream (bytesOf exampleModel) = .ok exampleModel ∧
     loadOasStream (saveToStream exampleModel) = some exampleModel) :=
  ⟨by decide, claim_C2 exampleModel (by decide)⟩

/-- C3: encoding the same layout model twice yields byte-identical output,
and the writer's name table is assigned in first-seen traversal order. -/
theorem claim_C3 (m : Layout) :
    saveToStream m = saveToStream m ∧ writerNames m = dedupe (travNames m) :=
  ⟨rfl, writerNames_eq_dedupe m⟩

/-- C4: a stream whose parsed layout contains a reference cycle loads to
`CyclicReferenceError` and never silently succeeds; the validation is the
second pass over the fully parsed model. -/
theorem claim_C4 (s : List Nat) (m : Layout) (hparse : parsePhase s = .ok m)
    (hcyc : hasCycle m) : loadFromStream s = .error .cyclicReference :=
  load_cyclic hparse hcyc

set_option maxRecDepth 40000 in
/-- C4 witness: the two-cell cyclic library, built and loaded concretely. -/
theorem claim_C4_witness :
    parsePhase (bytesOf cyclicModel) = .ok cyclicModel ∧
    hasCycle cyclicModel ∧
    loadFromStream (bytesOf cyclicModel) = .error .cyclicReference := by
  have hcyc : hasCycle cyclicModel :=
    ⟨"A", Relation.TransGen.head (b := "B")
      (show "B" ∈ succs cyclicModel "A" by decide)
      (Relation.TransGen.single (show "A" ∈ succs cyclicModel "B" by decide))⟩
  exact ⟨by decide, hcyc, claim_C4 (bytesOf cyclicModel) cyclicModel (by decide) hcyc⟩

/-- C5: a stream cut off mid-record loads to `TruncatedStreamError` and
never returns a partial model, and `readRecord` fails with
`InvalidRecordLengthError` whenever the declared record length is odd. -/
theorem claim_C5 :
    (∀ (rs : List Rec), (∀ r ∈ rs, WfRec r) → (∀ r ∈ rs, r.1 ≠ tENDLIB) →
      ∀ (t : Nat) (p : List Nat), p.length % 2 = 0 → p.length + 4 < 65536 →
      ∀ k, 0 < k → k < (encRecord t p).length →
      loadFromStream (encRecs rs ++ (encRecord t p).take k) = .error .truncatedStream) ∧
    (∀ (a b c d : Nat) (s' : List Nat), (a * 256 + b) % 2 = 1 →
      readRecord (a :: b :: c :: d :: s') = .error .invalidRecordLength) := by
  constructor
  · intro rs hwf hne t p hev hlen k hk1 hk2
    exact load_truncated hwf hne hev hlen hk1 hk2
  · intro a b c d s' hodd
    exact readRecord_odd a b c d s' hodd

/-- C5 witness: a concrete stream cut four bytes into an eight-byte record,
and a concrete odd declared length. -/
theorem claim_C5_witness :
    loadFromStream (encRecs [(tHEADER, twosEncode 2 600)] ++
      (encRecord tLAYER (twosEncode 2 1)).take 4) = .error .truncatedStream ∧
    readRecord [0, 5, 2, 6, 0] = .error .invalidRecordLength := by
  constructor
  · exact claim_C5.1 [(tHEADER, twosEncode 2 600)] (by decide) (by decide)
      tLAYER (twosEncode 2 1) (by decide) (by decide) 4 (by decide) (by decide)
  · exact claim_C5.2 0 5 2 6 [0] (by decide)

/-- C6: loading either returns a layout model or fails with one of the five
declared errors; a cleanly exhausted stream with no `ENDLIB` fails with
`UnexpectedEndOfStreamError`, and records after `ENDLIB` are ignored. -/
theorem claim_C6 :
    (∀ s : List Nat, (∃ m, loadFromStream s = .ok m) ∨ (∃ e, loadFromStream s = .error e)) ∧
    (∀ (rs : List Rec), (∀ r ∈ rs, WfRec r) → (∀ r ∈ rs, r.1 ≠ tENDLIB) →
      loadFromStream (encRecs rs) = .error .unexpectedEndOfStream) ∧
    (∀ (rs : List Rec), (∀ r ∈ rs, WfRec r) → (∀ r ∈ rs, r.1 ≠ tENDLIB) →
      ∀ junk : List Nat,
        loadFromStream (encRecs rs ++ (encRecord tENDLIB [] ++ junk)) =
          loadFromStream (encRecs rs ++ encRecord tENDLIB [])) := by
  refine ⟨loadFromStream_total, ?_, ?_⟩
  · intro rs hwf hne
    exact load_no_endlib hwf hne
  · intro rs hwf hne junk
    exact load_ignores_after_endlib hwf hne junk

/-- C6 witness: a concrete header-only stream with no `ENDLIB`, and concrete
junk bytes after `ENDLIB`. -/
theorem claim_C6_witness :
    loadFromStream (encRecs [(tHEADER, twosEncode 2 600)]) = .error .unexpectedEndOfStream ∧
    loadFromStream (encRecs [(tHEADER, twosEncode 2 600)] ++ (encRecord tENDLIB [] ++ [9, 9, 9])) =
      loadFromStream (encRecs [(tHEADER, twosEncode 2 600)] ++ encRecord tENDLIB []) :=
  ⟨claim_C6.2.1 [(tHEADER, twosEncode 2 600)] (by decide) (by decide),
   claim_C6.2.2 [(tHEADER, twosEncode 2 600)] (by decide) (by decide) [9, 9, 9]⟩

/-- C7: applyToPoint applies magnification, then mirror, then rotation, then
translation, in that fixed order; a 2-by-2 array reference with pitches
(10,0) and (0,10) on a single-point cell at the origin resolves to exactly
the four instances (0,0), (10,0), (0,10), (10,10). -/
theorem claim_C7 :
    (∀ (t : RTransform) (p : ℝ × ℝ),
      applyToPoint t p = raTranslate t (raRotate t (raMirror t (raMag t p)))) ∧
    resolveArray idRT 2 2 (10, 0) (0, 10) (0, 0) =
      [(0, 0), (10, 0), (0, 10), (10, 10)] :=
  ⟨applyToPoint_stages, resolveArray_2x2⟩

/-- C8: the Python wrapper is a pure delegation — `cells` returns the
engine's `cell_names()` unchanged, and `load_gds`/`save_oas` forward
`str(path)` to the engine. -/
theorem claim_C8 (E : LowLevel) (self : Py.Layout E) (path : PyVal) :
    Py.Layout.cells self = E.cellNames self.inner ∧
    Py.Layout.load_gds self path = ⟨E.loadGds self.inner (pyStr path)⟩ ∧
    Py.Layout.save_oas self path = E.saveOas self.inner (pyStr path) :=
  wrapper_delegation E self path

/-- C9: for every order, the L-system instructions contain exactly 7^n
symbols from the set of drawing moves, and the turtle path has exactly
7^n + 1 points, the first being the origin. -/
theorem claim_C9 (n : Nat) (step : ℝ) :
    countAB (lsystemInstructions n) = 7 ^ n ∧
    (turtlePath (lsystemInstructions n) step).length = 7 ^ n + 1 ∧
    (turtlePath (lsystemInstructions n) step).head? = some (0, 0) :=
  ⟨countAB_lsystem n, by rw [turtlePath_length, countAB_lsystem],
   turtlePath_head (lsystemInstructions n) step⟩

/-- C10 counterexample: on the empty input Python's `min` raises
`ValueError`, so `fit_to_viewbox` returns no output list at all. -/
theorem claim_C10_counterexample :
    ¬ ∃ out, fitToViewbox ([] : List (ℚ × ℚ)) 1024 32 = some out ∧
      out.length = ([] : List (ℚ × ℚ)).length := by
  intro ⟨out, hout, _⟩
  simp [fitToViewbox] at hout

/-- C10 (amended): for every non-empty input, fit_to_viewbox returns a list
of exactly the same length as its input, and whenever the size is at least
twice the margin every output point lies within the square from margin to
size minus margin on both axes. -/
theorem claim_C10 (points : List (ℚ × ℚ)) (size margin : ℚ) (hne : points ≠ []) :
    ∃ out, fitToViewbox points size margin = some out ∧
      out.length = points.length ∧
      (2 * margin ≤ size → ∀ q ∈ out,
        margin ≤ q.1 ∧ q.1 ≤ size - margin ∧ margin ≤ q.2 ∧ q.2 ≤ size - margin) :=
  fitToViewbox_spec hne size margin

/-- C10 witness: the amended claim applied to a concrete two-point list. -/
theorem claim_C10_witness :
    ∃ out, fitToViewbox [((0 : ℚ), (0 : ℚ)), (1, 1)] 100 32 = some out ∧
      out.length = 2 ∧
      (2 * 32 ≤ (100 : ℚ) → ∀ q ∈ out,
        32 ≤ q.1 ∧ q.1 ≤ 100 - 32 ∧ 32 ≤ q.2 ∧ q.2 ≤ 100 - 32) :=
  claim_C10 [(0, 0), (1, 1)] 100 32 (by decide)

end GOASper
